import Mathlib

/-!
Verification of the sequaljs ProForma 2.0 parser / serializer.

Shallow embedding conventions:
* JavaScript strings are modelled as `List Char` (`Str`).
* JavaScript numbers that arise from parsing decimal literals are modelled as
  exact decimals (`JsNum`); `NaN` is modelled as `none` in an `Option JsNum`
  (every place a `NaN` can flow in the original code treats it as falsy,
  which `none` mirrors).
* JavaScript object identity of `Modification` instances is modelled by a
  `uid : Nat` tag assigned in creation order by the parser.
* JavaScript exceptions are modelled with `Except String`.
-/

namespace Sequal

/-- Strings are lists of characters. -/
abbrev Str := List Char

/-- JS `includes` for a one-character needle. -/
def strHas (s : Str) (c : Char) : Bool := s.any (· == c)

/-- JS `String.prototype.split` with a one-character separator
(`"".split(c) = [""]`, separators at the ends produce empty pieces). -/
def splitOnChar (c : Char) : Str → List Str
  | [] => [[]]
  | d :: rest =>
    let r := splitOnChar c rest
    if d == c then [] :: r
    else
      match r with
      | [] => [[d]]
      | h :: t => (d :: h) :: t

/-- JS `s.split(c, 2)`: the first piece, and the second piece when a separator
occurs (anything after a second separator is discarded, as in JS). -/
def jsSplit2 (c : Char) (s : Str) : Str × Option Str :=
  match splitOnChar c s with
  | [] => ([], none)
  | [a] => (a, none)
  | a :: b :: _ => (a, some b)

/-- Index of the first occurrence of `c` in `s`, if any (JS `indexOf`). -/
def indexOfChar (c : Char) : Str → Option Nat
  | [] => none
  | d :: rest =>
    if d == c then some 0
    else (indexOfChar c rest).map (· + 1)

/-- JS `s.substring(i, j)` (with `i ≤ j`, as at every call site). -/
def substring (s : Str) (i j : Nat) : Str := (s.drop i).take (j - i)

/-- Leading run of ASCII digits together with the remaining characters. -/
def takeDigits (s : Str) : Str × Str := (s.takeWhile (·.isDigit), s.dropWhile (·.isDigit))

/-- Numeric value of a list of ASCII digits. -/
def digitsToNat (l : Str) : Nat := l.foldl (fun a c => a * 10 + (c.toNat - 48)) 0

/-- Exact decimal number `num / 10 ^ exp`: the model of the JS doubles that
this library parses from and prints to decimal strings. Every constructor
normalizes to the canonical form in which `num` is not a multiple of 10
unless `exp = 0`, so derived (structural) equality is numeric equality. -/
structure JsNum where
  num : Int
  exp : Nat
  deriving DecidableEq, Repr

/-- Strip common factors of 10 (fuelled by the exponent). -/
def JsNum.normAux : Nat → Int → Nat → JsNum
  | 0, n, e => ⟨n, e⟩
  | fuel + 1, n, e =>
    if e > 0 ∧ n % 10 = 0 then JsNum.normAux fuel (n / 10) (e - 1) else ⟨n, e⟩

/-- Normalizing constructor for `num / 10 ^ exp`. -/
def JsNum.make (n : Int) (e : Nat) : JsNum := JsNum.normAux e n e

/-- Zero. -/
def JsNum.zero : JsNum := ⟨0, 0⟩

/-- Addition of exact decimals. -/
def JsNum.add (a b : JsNum) : JsNum :=
  let e := max a.exp b.exp
  JsNum.make (a.num * 10 ^ (e - a.exp) + b.num * 10 ^ (e - b.exp)) e

/-- `> 0`. -/
def JsNum.isPos (a : JsNum) : Bool := a.num > 0

/-- `< 0`. -/
def JsNum.isNeg (a : JsNum) : Bool := a.num < 0

/-- JS `parseFloat`, restricted to the shapes produced by this library: an
optional sign, digits, and an optional fractional part; trailing characters
are ignored and `none` models `NaN` (no digits at all). -/
def parseFloat (s : Str) : Option JsNum :=
  let (sgn, t) : Int × Str :=
    match s with
    | '+' :: r => (1, r)
    | '-' :: r => (-1, r)
    | r => (1, r)
  let (ip, t₂) := takeDigits t
  let (fp, _) : Str × Str :=
    match t₂ with
    | '.' :: r => takeDigits r
    | _ => ([], t₂)
  if ip = [] ∧ fp = [] then none
  else some (JsNum.make (sgn * ((digitsToNat ip : Int) * 10 ^ fp.length + (digitsToNat fp : Int))) fp.length)

/-- JS `parseInt` in base 10: optional sign then a digit run; `none` is `NaN`. -/
def parseIntJs (s : Str) : Option Int :=
  let (sgn, t) : Int × Str :=
    match s with
    | '+' :: r => (1, r)
    | '-' :: r => (-1, r)
    | r => (1, r)
  let (ip, _) := takeDigits t
  if ip = [] then none else some (sgn * (digitsToNat ip : Int))

/-- Digits of `n` (most significant first); fuelled, `fuel ≥ n` suffices. -/
def natToDigitsAux : Nat → Nat → Str
  | 0, _ => []
  | _ + 1, 0 => []
  | fuel + 1, n => natToDigitsAux fuel (n / 10) ++ [Char.ofNat (48 + n % 10)]

/-- Decimal digits of a natural number. -/
def natToDigits (n : Nat) : Str := if n = 0 then ['0'] else natToDigitsAux (n + 1) n

/-- JS number-to-string conversion for the exact decimals produced by
`parseFloat` (shortest decimal form: no trailing fractional zeros — these are
normalized away — so `-10.0` prints as `-10`, matching what JS prints for
such doubles). -/
def numToStr (q : JsNum) : Str :=
  let sign : Str := if q.num < 0 then ['-'] else []
  let a := q.num.natAbs
  if q.exp = 0 then sign ++ natToDigits a
  else
    let ds := natToDigits a
    let ds := List.replicate (q.exp + 1 - ds.length) '0' ++ ds
    sign ++ ds.take (ds.length - q.exp) ++ '.' :: ds.drop (ds.length - q.exp)

/-- JS `Number.prototype.toFixed(2)` on an exact decimal (round half away
from zero, two fractional digits, the sign of the value kept as JS does). -/
def toFixed2 (q : JsNum) : Str :=
  let m : Nat := (q.num.natAbs * 200 + 10 ^ q.exp) / (2 * 10 ^ q.exp)
  let sign : Str := if q.num < 0 then ['-'] else []
  let f := natToDigits (m % 100)
  sign ++ natToDigits (m / 100) ++ '.' :: (List.replicate (2 - f.length) '0' ++ f)

/-! ## `resources.ts`: hard-coded mass tables -/

/-- Exact decimal `n / 10 ^ k`. -/
def dec (n : Int) (k : Nat) : JsNum := JsNum.make n k

/-- `proton` constant from `resources.ts`. -/
def proton : JsNum := dec 1007277 6

/-- `H` (hydrogen mass) from `resources.ts`. -/
def H : JsNum := dec 1007825 6

/-- `O` (oxygen mass) from `resources.ts`. -/
def O : JsNum := dec 1599491463 8

/-- `AA_mass` table from `resources.ts`, keyed by the residue string. -/
def AA_mass (s : Str) : Option JsNum :=
  match s with
  | ['A'] => some (dec 71037114 6)
  | ['R'] => some (dec 156101111 6)
  | ['N'] => some (dec 114042927 6)
  | ['D'] => some (dec 115026943 6)
  | ['C'] => some (dec 103009185 6)
  | ['E'] => some (dec 129042593 6)
  | ['Q'] => some (dec 128058578 6)
  | ['G'] => some (dec 57021464 6)
  | ['H'] => some (dec 137058912 6)
  | ['I'] => some (dec 113084064 6)
  | ['L'] => some (dec 113084064 6)
  | ['K'] => some (dec 128094963 6)
  | ['M'] => some (dec 131040485 6)
  | ['F'] => some (dec 147068414 6)
  | ['P'] => some (dec 97052764 6)
  | ['S'] => some (dec 87032028 6)
  | ['T'] => some (dec 101047679 6)
  | ['U'] => some (dec 25515829 5)
  | ['W'] => some (dec 186079313 6)
  | ['Y'] => some (dec 16306332 5)
  | ['V'] => some (dec 99068414 6)
  | ['X'] => some JsNum.zero
  | ['O'] => some (dec 15003794 5)
  | _ => none

/-- `monosaccharides` list from `resources.ts` (source order). -/
def monosaccharides : List Str :=
  ["Hex".toList, "HexNAc".toList, "HexS".toList, "HexP".toList, "HexNAcS".toList,
   "dHex".toList, "NeuAc".toList, "NeuGc".toList, "Pen".toList, "Fuc".toList]

/-! ## `modification.ts`: `PipeValue` -/

/-- The `PipeValue` entity of `modification.ts` (one pipe-separated
interpretation inside a modification bracket). -/
structure PipeValue where
  value : Str
  type : String
  crosslinkId : Option Str := none
  isBranch : Bool := false
  isBranchRef : Bool := false
  isCrosslinkRef : Bool := false
  ambiguityGroup : Option Str := none
  isAmbiguityRef : Bool := false
  localizationScore : Option JsNum := none
  source : Option Str := none
  originalValue : Option Str := none
  mass : Option JsNum := none
  observedMass : Option JsNum := none
  isValidGlycan : Bool := false
  isValidFormula : Bool := false
  assignedTypes : List String := []
  deriving DecidableEq, Repr

/-- `PipeValue.SYNONYM` -/
def PipeValue.SYNONYM : String := "synonym"

/-- `PipeValue.INFO_TAG` -/
def PipeValue.INFO_TAG : String := "info_tag"

/-- `PipeValue.MASS` -/
def PipeValue.MASS : String := "mass"

/-- `PipeValue.OBSERVED_MASS` -/
def PipeValue.OBSERVED_MASS : String := "observed_mass"

/-- `PipeValue.CROSSLINK` -/
def PipeValue.CROSSLINK : String := "crosslink"

/-- `PipeValue.BRANCH` -/
def PipeValue.BRANCH : String := "branch"

/-- `PipeValue.AMBIGUITY` -/
def PipeValue.AMBIGUITY : String := "ambiguity"

/-- `PipeValue.GLYCAN` -/
def PipeValue.GLYCAN : String := "glycan"

/-- `PipeValue.GAP` -/
def PipeValue.GAP : String := "gap"

/-- `PipeValue.FORMULA` -/
def PipeValue.FORMULA : String := "formula"

/-- JS truthiness of a nullable string: `null` and the empty string are falsy. -/
def optStrTruthy : Option Str → Bool
  | some s => s ≠ []
  | none => false

/-- First match of the JS regex `\(([\d.]+)\)` in `s`, as
(text before the match, the bracketed group, text after the match). -/
def findParenScore : Str → Option (Str × Str × Str)
  | [] => none
  | '(' :: rest =>
    let inner := rest.takeWhile (fun c => c.isDigit || c == '.')
    let rest₂ := rest.dropWhile (fun c => c.isDigit || c == '.')
    if inner ≠ [] ∧ rest₂.head? = some ')' then
      some ([], inner, rest₂.tail)
    else
      match findParenScore rest with
      | some (b, i, a) => some ('(' :: b, i, a)
      | none => none
  | c :: rest =>
    match findParenScore rest with
    | some (b, i, a) => some (c :: b, i, a)
    | none => none

/-- The repeated source idiom: run `/\(([\d.]+)\)/` on `pipeVal.ambiguityGroup`;
on a match set `localizationScore` (a `NaN` parse models as `none`) and delete
the matched text from the group (`String.replace` of the first occurrence). -/
def PipeValue.applyScore (pv : PipeValue) : PipeValue :=
  match pv.ambiguityGroup with
  | some g =>
    match findParenScore g with
    | some (b, i, a) => { pv with localizationScore := parseFloat i, ambiguityGroup := some (b ++ a) }
    | none => pv
  | none => pv

/-- The `PipeValue` constructor including `_extractProperties`. -/
def PipeValue.make (value : Str) (valueType : String) (originalValue : Option Str) : PipeValue :=
  let pv : PipeValue := { value := value, type := valueType, originalValue := originalValue }
  if valueType == PipeValue.CROSSLINK && strHas value '#' then
    match (jsSplit2 '#' value).2 with
    | some p1 =>
      if p1 = "BRANCH".toList then { pv with isBranch := true }
      else { pv with crosslinkId := some p1 }
    | none => pv
  else if valueType == PipeValue.AMBIGUITY && strHas value '#' then
    match (jsSplit2 '#' value).2 with
    | some p1 =>
      let pv := { pv with ambiguityGroup := some p1 }
      if strHas p1 '(' && strHas p1 ')' then
        match findParenScore p1 with
        | some (_, inner, _) => { pv with localizationScore := parseFloat inner }
        | none => pv
      else pv
    | none => pv
  else pv

/-- The `type` setter of `PipeValue`: replace the head of `assignedTypes`
(or push when empty). -/
def PipeValue.setType (pv : PipeValue) (t : String) : PipeValue :=
  { pv with
    type := t,
    assignedTypes :=
      match pv.assignedTypes with
      | [] => [t]
      | _ :: rest => t :: rest }

/-! ## `modification.ts`: `ModificationValue` -/

/-- The `ModificationValue` entity: primary value, source, mass, pipe values. -/
structure ModificationValue where
  primaryValue : Str := []
  source : Option Str := none
  mass : Option JsNum := none
  pipeValues : List PipeValue := []
  deriving DecidableEq, Repr

/-- `ModificationValue.KNOWN_SOURCES`. -/
def ModificationValue.KNOWN_SOURCES : List Str :=
  ["Unimod", "U", "PSI-MOD", "M", "RESID", "R", "XL-MOD", "X", "XLMOD", "GNO", "G",
   "MOD", "Obs", "Formula", "FORMULA", "GLYCAN", "Glycan", "Info", "INFO", "OBS",
   "XL"].map String.toList

/-- ASCII upper-casing (JS `toUpperCase` on the identifiers involved). -/
def strUpper (s : Str) : Str := s.map Char.toUpper

/-- Monosaccharide names sorted by descending length; JS `sort` with the
comparator `b.length - a.length` is stable, modelled by a stable insertion
sort. -/
def insertDescLen (x : Str) : List Str → List Str
  | [] => [x]
  | y :: rest => if y.length < x.length then x :: y :: rest else y :: insertDescLen x rest

/-- Stable sort by descending string length. -/
def stableSortDescLen : List Str → List Str
  | [] => []
  | x :: rest => insertDescLen x (stableSortDescLen rest)

/-- `sortedMonos` of `_validateGlycan`. -/
def sortedMonos : List Str := stableSortDescLen monosaccharides

/-- Length contributed by the optional `(\d+)` group of the glycan regex when
it matches at the start of `s` (0 otherwise). -/
def parenDigitsLen (s : Str) : Nat :=
  match s with
  | '(' :: rest =>
    let (ds, rest₂) := takeDigits rest
    if ds ≠ [] ∧ rest₂.head? = some ')' then ds.length + 2 else 0
  | _ => 0

/-- `match[0].length` of the first (unanchored) JS match of the glycan pattern
in `s`: start positions scanned left to right, name alternatives tried in
`sortedMonos` order, an optional `(digits)` suffix included greedily. -/
def findMonoMatchLen : Str → Option Nat
  | [] => none
  | s@(_ :: rest) =>
    match sortedMonos.find? (fun m => m.isPrefixOf s) with
    | some m => some (m.length + parenDigitsLen (s.drop m.length))
    | none => findMonoMatchLen rest

/-- The `while` loop of `_validateGlycan`: each step finds a match anywhere in
the remaining suffix and advances by the match length. -/
def glycanLoopAux : Nat → Str → Bool
  | _, [] => true
  | 0, _ => false
  | fuel + 1, s =>
    match findMonoMatchLen s with
    | none => false
    | some len => glycanLoopAux fuel (s.drop len)

/-- `ModificationValue._validateGlycan` (also the public `validateGlycan`). -/
def ModificationValue.validateGlycan (glycan : Str) : Bool :=
  let g := glycan.filter (fun c => !c.isWhitespace)
  glycanLoopAux (g.length + 1) g

/-- Existence of a match of `/\d+[A-Z][a-z]?(-?\d+)?/` inside the isotope
bracket, which reduces to an adjacent digit–uppercase pair. -/
def isotopeMatch (s : Str) : Bool :=
  (s.zip s.tail).any (fun p => p.1.isDigit && p.2.isUpper)

/-- The optional signed quantity check of `_validateFormula`: consume
`-?\d+` when present; reject a literal zero quantity. -/
def formulaQtyCheck : Str → Bool × Str
  | '-' :: rest =>
    let (ds, rest₂) := takeDigits rest
    (parseIntJs ('-' :: ds) ≠ some 0, rest₂)
  | s@(c :: _) =>
    if c.isDigit then
      let (ds, rest₂) := takeDigits s
      (parseIntJs ds ≠ some 0, rest₂)
    else (true, s)
  | [] => (true, [])

/-- The scanning loop of `_validateFormula`. -/
def formulaLoopAux : Nat → Str → Bool
  | _, [] => true
  | 0, _ => false
  | fuel + 1, s =>
    match s with
    | [] => true
    | '[' :: rest =>
      match indexOfChar ']' rest with
      | none => false
      | some idx =>
        if isotopeMatch (rest.take idx) then
          let (ok, rest₂) := formulaQtyCheck (rest.drop (idx + 1))
          ok && formulaLoopAux fuel rest₂
        else false
    | c :: rest =>
      if c.isUpper then
        let rest₁ := if (rest.head?.map Char.isLower).getD false then rest.tail else rest
        let (ok, rest₂) := formulaQtyCheck rest₁
        ok && formulaLoopAux fuel rest₂
      else false

/-- `ModificationValue._validateFormula` (also the public `validateFormula`). -/
def ModificationValue.validateFormula (formula : Str) : Bool :=
  let f := formula.filter (fun c => !c.isWhitespace)
  if f = [] then false
  else if (formula.filter (· == '[')).length ≠ (formula.filter (· == ']')).length then false
  else formulaLoopAux (f.length + 1) f

/-- `ModificationValue._processPrimaryValue`. -/
def ModificationValue.processPrimaryValue (mv : ModificationValue) (value : Str) : ModificationValue :=
  if value = "#BRANCH".toList then
    let pv := PipeValue.make value PipeValue.BRANCH (some value)
    let pv := { pv with isBranchRef := true, isBranch := true }
    { mv with primaryValue := [], pipeValues := mv.pipeValues ++ [pv] }
  else if value.head? = some '#' then
    let pvType :=
      if ("XL".toList).isPrefixOf (value.drop 1) then PipeValue.CROSSLINK else PipeValue.AMBIGUITY
    let isXL := pvType == PipeValue.CROSSLINK
    let pv := PipeValue.make value pvType (some value)
    let pv := { pv with
      isCrosslinkRef := isXL,
      isAmbiguityRef := !isXL,
      crosslinkId := if isXL then some (value.drop 1) else none,
      ambiguityGroup := if !isXL then some (value.drop 1) else none }
    let pv := if optStrTruthy pv.ambiguityGroup then pv.applyScore else pv
    { mv with primaryValue := [], pipeValues := mv.pipeValues ++ [pv] }
  else if strHas value ':' then
    let (p0, p1opt) := jsSplit2 ':' value
    let p1 := p1opt.getD []
    if ModificationValue.KNOWN_SOURCES.contains p0 then
      let mv := { mv with source := some p0, primaryValue := p1 }
      let isValidFormula :=
        strUpper p0 == "FORMULA".toList && ModificationValue.validateFormula p1
      let isValidGlycan :=
        strUpper p0 == "GLYCAN".toList && ModificationValue.validateGlycan p1
      if strHas p1 '#' then
        let (q0, q1opt) := jsSplit2 '#' p1
        let q1 := q1opt.getD []
        let mv := { mv with primaryValue := q0 }
        let pv :=
          if p0 = "XL".toList ∨ p0 = "XLMOD".toList ∨ p0 = "XL-MOD".toList ∨ p0 = "X".toList then
            let pv := PipeValue.make q0 PipeValue.CROSSLINK (some value)
            { pv with source := some p0, crosslinkId := some q1 }
          else if q1 = "BRANCH".toList then
            let pv := PipeValue.make q0 PipeValue.BRANCH none
            { pv with source := some p0, isBranch := true }
          else
            let pv := PipeValue.make q0 PipeValue.AMBIGUITY (some value)
            let pv :=
              if isValidGlycan then
                { pv with isValidGlycan := true, assignedTypes := pv.assignedTypes ++ ["glycan"] }
              else if isValidFormula then
                { pv with isValidFormula := true, assignedTypes := pv.assignedTypes ++ ["formula"] }
              else pv
            let pv :=
              if strUpper p0 == "GNO".toList || strUpper p0 == "G".toList then
                { pv with isValidGlycan := true, assignedTypes := pv.assignedTypes ++ ["glycan"] }
              else pv
            let pv := { pv with source := some p0, ambiguityGroup := some q1 }
            pv.applyScore
        { mv with pipeValues := mv.pipeValues ++ [pv] }
      else
        let pv :=
          if strUpper p0 == "INFO".toList then
            PipeValue.make p1 PipeValue.INFO_TAG (some value)
          else if strUpper p0 == "OBS".toList then
            { PipeValue.make p1 PipeValue.OBSERVED_MASS (some value) with observedMass := parseFloat p1 }
          else if strUpper p0 == "GLYCAN".toList then
            { PipeValue.make p1 PipeValue.GLYCAN (some value) with isValidGlycan := isValidGlycan }
          else if strUpper p0 == "GNO".toList || strUpper p0 == "G".toList then
            { PipeValue.make p1 PipeValue.GAP (some value) with isValidGlycan := true }
          else if strUpper p0 == "FORMULA".toList then
            { PipeValue.make p1 PipeValue.FORMULA (some value) with isValidFormula := isValidFormula }
          else
            PipeValue.make p1 PipeValue.SYNONYM (some value)
        let pv := { pv with source := some p0 }
        { mv with pipeValues := mv.pipeValues ++ [pv] }
    else if strUpper p0 == "MASS".toList then
      let mv := { mv with primaryValue := value }
      let m := parseFloat p1
      let mv := { mv with mass := m }
      let pv := { PipeValue.make p1 PipeValue.MASS (some value) with mass := m }
      if strHas p1 '#' then
        let (r0, r1opt) := jsSplit2 '#' mv.primaryValue
        let r1 := r1opt.getD []
        let mv := { mv with primaryValue := r0 }
        let pv := { pv with value := r0 }
        let pv :=
          if r1 = "BRANCH".toList then
            ({ pv with isBranch := true }).setType PipeValue.BRANCH
          else if ("XL".toList).isPrefixOf r1 then
            ({ pv with crosslinkId := some r1 }).setType PipeValue.CROSSLINK
          else
            (({ pv with ambiguityGroup := some r1 }).setType PipeValue.AMBIGUITY).applyScore
        let pv := { pv with assignedTypes := pv.assignedTypes ++ [PipeValue.MASS] }
        { mv with pipeValues := mv.pipeValues ++ [pv] }
      else
        { mv with pipeValues := mv.pipeValues ++ [pv] }
    else
      let pv := PipeValue.make value PipeValue.SYNONYM (some value)
      { mv with primaryValue := value, pipeValues := mv.pipeValues ++ [pv] }
  else if strHas value '#' then
    let (p0, p1opt) := jsSplit2 '#' value
    let p1 := p1opt.getD []
    let mv := { mv with primaryValue := p0 }
    let pv :=
      if p1 = "BRANCH".toList then
        { PipeValue.make p0 PipeValue.BRANCH (some value) with isBranch := true }
      else if ("XL".toList).isPrefixOf p1 then
        { PipeValue.make p0 PipeValue.CROSSLINK (some value) with crosslinkId := some p1 }
      else
        ({ PipeValue.make p0 PipeValue.AMBIGUITY (some value) with ambiguityGroup := some p1 }).applyScore
    if p0.head? = some '+' ∨ p0.head? = some '-' then
      let m := parseFloat p0
      let pv := { pv with mass := m, assignedTypes := pv.assignedTypes ++ [PipeValue.MASS] }
      { mv with mass := m, pipeValues := mv.pipeValues ++ [pv] }
    else
      let pv := { pv with assignedTypes := pv.assignedTypes ++ [PipeValue.SYNONYM] }
      { mv with pipeValues := mv.pipeValues ++ [pv] }
  else
    let mv := { mv with primaryValue := value }
    if (value.head? = some '+' ∨ value.head? = some '-') ∧ value.any (·.isDigit) then
      let m := parseFloat value
      let pv := { PipeValue.make value PipeValue.MASS (some value) with mass := m }
      { mv with mass := m, pipeValues := mv.pipeValues ++ [pv] }
    else
      { mv with pipeValues := mv.pipeValues ++ [PipeValue.make value PipeValue.SYNONYM (some value)] }

/-- `ModificationValue._processPipeComponent`. -/
def ModificationValue.processPipeComponent (mv : ModificationValue) (component : Str) : ModificationValue :=
  if component = "#BRANCH".toList then
    let pv := { PipeValue.make component PipeValue.BRANCH (some component) with
      isBranchRef := true, isBranch := true }
    { mv with pipeValues := mv.pipeValues ++ [pv] }
  else if component.head? = some '#' then
    let pvType :=
      if ("XL".toList).isPrefixOf (component.drop 1) then PipeValue.CROSSLINK else PipeValue.AMBIGUITY
    let isXL := pvType == PipeValue.CROSSLINK
    let pv := PipeValue.make component pvType (some component)
    let pv := { pv with
      isCrosslinkRef := isXL,
      isAmbiguityRef := !isXL,
      crosslinkId := if isXL then some (component.drop 1) else none,
      ambiguityGroup := if !isXL then some (component.drop 1) else none }
    let pv := if optStrTruthy pv.ambiguityGroup then pv.applyScore else pv
    { mv with pipeValues := mv.pipeValues ++ [pv] }
  else if strHas component ':' then
    let (p0, p1opt) := jsSplit2 ':' component
    let p1 := p1opt.getD []
    if ModificationValue.KNOWN_SOURCES.contains p0 then
      if strHas p1 '#' then
        let (q0, q1opt) := jsSplit2 '#' p1
        let q1 := q1opt.getD []
        let isValidFormula :=
          strUpper p0 == "FORMULA".toList && ModificationValue.validateFormula q0
        let isValidGlycan :=
          strUpper p0 == "GLYCAN".toList && ModificationValue.validateGlycan q0
        let pv :=
          if p0 = "XL".toList ∨ p0 = "XLMOD".toList ∨ p0 = "XL-MOD".toList ∨ p0 = "X".toList then
            { PipeValue.make q0 PipeValue.CROSSLINK none with crosslinkId := some q1 }
          else if q1 = "BRANCH".toList then
            { PipeValue.make q0 PipeValue.BRANCH none with isBranch := true }
          else if strUpper p0 == "GLYCAN".toList then
            { PipeValue.make q0 PipeValue.GLYCAN none with isValidGlycan := isValidGlycan }
          else if strUpper p0 == "GNO".toList || strUpper p0 == "G".toList then
            { PipeValue.make q0 PipeValue.GAP none with isValidGlycan := true }
          else if strUpper p0 == "FORMULA".toList then
            { PipeValue.make q0 PipeValue.FORMULA none with isValidFormula := isValidFormula }
          else
            ({ PipeValue.make q0 PipeValue.AMBIGUITY none with ambiguityGroup := some q1 }).applyScore
        let pv := { pv with source := some p0 }
        { mv with pipeValues := mv.pipeValues ++ [pv] }
      else
        let pv :=
          if strUpper p0 == "INFO".toList then
            PipeValue.make p1 PipeValue.INFO_TAG (some component)
          else if strUpper p0 == "OBS".toList then
            { PipeValue.make p1 PipeValue.OBSERVED_MASS (some component) with observedMass := parseFloat p1 }
          else if strUpper p0 == "GLYCAN".toList then
            { PipeValue.make p1 PipeValue.GLYCAN (some component) with
              isValidGlycan := ModificationValue.validateGlycan p1 }
          else if strUpper p0 == "GNO".toList || strUpper p0 == "G".toList then
            { PipeValue.make p1 PipeValue.GAP (some component) with isValidGlycan := true }
          else if strUpper p0 == "FORMULA".toList then
            { PipeValue.make p1 PipeValue.FORMULA (some component) with
              isValidFormula := ModificationValue.validateFormula p1 }
          else
            PipeValue.make p1 PipeValue.SYNONYM (some component)
        let pv := { pv with source := some p0 }
        { mv with pipeValues := mv.pipeValues ++ [pv] }
    else if strUpper p0 == "MASS".toList then
      let m := parseFloat p1
      let pv := { PipeValue.make p1 PipeValue.MASS (some component) with mass := m }
      let pv :=
        if strHas p1 '#' then
          let (_, h1opt) := jsSplit2 '#' p1
          let h1 := h1opt.getD []
          if h1 = "BRANCH".toList then
            ({ pv with isBranch := true }).setType PipeValue.BRANCH
          else if ("XL".toList).isPrefixOf h1 then
            ({ pv with crosslinkId := some h1 }).setType PipeValue.CROSSLINK
          else
            (({ pv with ambiguityGroup := some h1 }).setType PipeValue.AMBIGUITY).applyScore
        else pv
      { mv with pipeValues := mv.pipeValues ++ [pv] }
    else
      { mv with pipeValues := mv.pipeValues ++ [PipeValue.make component PipeValue.SYNONYM (some component)] }
  else if strHas component '#' then
    let (p0, p1opt) := jsSplit2 '#' component
    let p1 := p1opt.getD []
    let pv :=
      if p1 = "BRANCH".toList then
        { PipeValue.make p0 PipeValue.BRANCH (some component) with isBranch := true }
      else if ("XL".toList).isPrefixOf p1 then
        { PipeValue.make p0 PipeValue.CROSSLINK (some component) with crosslinkId := some p1 }
      else
        ({ PipeValue.make p0 PipeValue.AMBIGUITY (some component) with ambiguityGroup := some p1 }).applyScore
    let pv :=
      if (p0.head? = some '+' ∨ p0.head? = some '-') ∧ p0.any (·.isDigit) then
        { pv with mass := parseFloat p0, assignedTypes := pv.assignedTypes ++ [PipeValue.MASS] }
      else
        { pv with assignedTypes := pv.assignedTypes ++ [PipeValue.SYNONYM] }
    { mv with pipeValues := mv.pipeValues ++ [pv] }
  else
    if (component.head? = some '+' ∨ component.head? = some '-') ∧ component.any (·.isDigit) then
      let pv := { PipeValue.make component PipeValue.MASS (some component) with mass := parseFloat component }
      { mv with pipeValues := mv.pipeValues ++ [pv] }
    else
      { mv with pipeValues := mv.pipeValues ++ [PipeValue.make component PipeValue.SYNONYM (some component)] }

/-- The `ModificationValue` constructor (`_parseValue` over the pipe split). -/
def ModificationValue.make (value : Str) (mass : Option JsNum) : ModificationValue :=
  let mv : ModificationValue := { mass := mass }
  match splitOnChar '|' value with
  | [] => mv
  | primary :: rest => rest.foldl ModificationValue.processPipeComponent (mv.processPrimaryValue primary)

/-- The JS idiom `list.map(...)[0] || null` for nullable strings
(an empty first string is also collapsed to `null`). -/
def jsStrOpt (l : Option (Option Str)) : Option Str :=
  match l with
  | some (some s) => if s = [] then none else some s
  | _ => none

/-- The JS idiom `list.map(...)[0] || null` for nullable numbers
(a zero first element is also collapsed to `null`). -/
def jsRatOpt (l : Option (Option JsNum)) : Option JsNum :=
  match l with
  | some (some q) => if q = JsNum.zero then none else some q
  | _ => none

/-- `ModificationValue.infoTags`. -/
def ModificationValue.infoTags (mv : ModificationValue) : List Str :=
  (mv.pipeValues.filter (·.type == PipeValue.INFO_TAG)).map (·.value)

/-- `ModificationValue.synonyms`. -/
def ModificationValue.synonyms (mv : ModificationValue) : List Str :=
  (mv.pipeValues.filter (·.type == PipeValue.SYNONYM)).map (·.value)

/-- `ModificationValue.observedMass`. -/
def ModificationValue.observedMass (mv : ModificationValue) : Option JsNum :=
  jsRatOpt (((mv.pipeValues.filter (·.type == PipeValue.OBSERVED_MASS)).map (·.observedMass)).head?)

/-- `ModificationValue.ambiguityGroup`. -/
def ModificationValue.ambiguityGroup (mv : ModificationValue) : Option Str :=
  jsStrOpt (((mv.pipeValues.filter (·.type == PipeValue.AMBIGUITY)).map (·.ambiguityGroup)).head?)

/-- `ModificationValue.isAmbiguityRef`. -/
def ModificationValue.isAmbiguityRef (mv : ModificationValue) : Bool :=
  (((mv.pipeValues.filter (·.type == PipeValue.AMBIGUITY)).map (·.isAmbiguityRef)).head?).getD false

/-- `ModificationValue.isCrosslinkRef`. -/
def ModificationValue.isCrosslinkRef (mv : ModificationValue) : Bool :=
  (((mv.pipeValues.filter (·.type == PipeValue.CROSSLINK)).map (·.isCrosslinkRef)).head?).getD false

/-- `ModificationValue.isBranchRef`. -/
def ModificationValue.isBranchRef (mv : ModificationValue) : Bool :=
  (((mv.pipeValues.filter (·.type == PipeValue.BRANCH)).map (·.isBranchRef)).head?).getD false

/-- `ModificationValue.isBranch`. -/
def ModificationValue.isBranch (mv : ModificationValue) : Bool :=
  (((mv.pipeValues.filter (·.type == PipeValue.BRANCH)).map (·.isBranch)).head?).getD false

/-- `ModificationValue.crossLinkId`. -/
def ModificationValue.crossLinkId (mv : ModificationValue) : Option Str :=
  jsStrOpt (((mv.pipeValues.filter (·.type == PipeValue.CROSSLINK)).map (·.crosslinkId)).head?)

/-- `ModificationValue.localizationScore`. -/
def ModificationValue.localizationScore (mv : ModificationValue) : Option JsNum :=
  jsRatOpt (((mv.pipeValues.filter (·.type == PipeValue.AMBIGUITY)).map (·.localizationScore)).head?)

/-! ## `modification.ts`: `Modification` -/

/-- JS `x || null` for a nullable string (empty collapses to `null`). -/
def jsStrOpt0 : Option Str → Option Str
  | some s => if s = [] then none else some s
  | none => none

/-- JS `x || null` for a nullable number (zero collapses to `null`). -/
def jsRatOpt0 : Option JsNum → Option JsNum
  | some q => if q = JsNum.zero then none else some q
  | none => none

/-- JS `x || null` for a nullable integer (zero collapses to `null`). -/
def jsIntOpt0 : Option Int → Option Int
  | some n => if n = 0 then none else some n
  | none => none

/-- The `Modification` entity (fields of `BaseBlock` and `Modification`
flattened; an `F` suffix marks a private backing field that has a same-named
getter). `uid` models JS object identity, assigned in creation order. -/
structure Modification where
  uid : Nat := 0
  valueField : Str := []
  position : Option Int := none
  modType : String := "static"
  labile : Bool := false
  labileNumber : Nat := 0
  baseMass : Option JsNum := some JsNum.zero
  crosslinkIdF : Option Str := none
  isCrosslinkRefF : Bool := false
  isBranchRefF : Bool := false
  isBranchF : Bool := false
  ambiguityGroupF : Option Str := none
  isAmbiguityRefF : Bool := false
  inRange : Bool := false
  rangeStart : Option Int := none
  rangeEnd : Option Int := none
  localizationScore : Option JsNum := none
  modValue : ModificationValue := {}
  deriving DecidableEq, Repr

/-- The `Modification` constructor. The `regexPattern`, `fullName` and
`allFilled` parameters (always absent / false at the embedded call sites) are
omitted, and so is the `validModTypes` membership check: every call site
passes a member of that set (after the crosslink override), so its `throw` is
unreachable. -/
def Modification.make (uid : Nat) (value : Str) (position : Option Int)
    (modType : String) (labile : Bool) (labilNumber : Nat) (mass : JsNum)
    (crosslinkId : Option Str) (isCrosslinkRef isBranchRef isBranch : Bool)
    (ambiguityGroup : Option Str) (isAmbiguityRef : Bool) (inRange : Bool)
    (rangeStart rangeEnd : Option Int) (localizationScore : Option JsNum)
    (modValue : Option ModificationValue) : Modification :=
  let (processedValue, crosslinkId) :=
    if value.head? = some '#' ∧ isCrosslinkRef then
      ('#' :: value.drop 1, some (value.drop 1))
    else (value, crosslinkId)
  let modType :=
    if (optStrTruthy crosslinkId || isCrosslinkRef) && modType ≠ "crosslink" then "crosslink"
    else modType
  { uid := uid,
    valueField := processedValue,
    position := position,
    modType := if inRange then "ambiguous" else modType,
    labile := labile || (modType == "labile"),
    labileNumber := labilNumber,
    baseMass := some mass,
    crosslinkIdF := jsStrOpt0 crosslinkId,
    isCrosslinkRefF := isCrosslinkRef,
    isBranchRefF := isBranchRef,
    isBranchF := isBranch,
    ambiguityGroupF := jsStrOpt0 ambiguityGroup,
    isAmbiguityRefF := isAmbiguityRef,
    inRange := inRange,
    rangeStart := jsIntOpt0 rangeStart,
    rangeEnd := jsIntOpt0 rangeEnd,
    localizationScore := jsRatOpt0 localizationScore,
    modValue := modValue.getD (ModificationValue.make value (some mass)) }

/-- `Modification.value` getter (`modValue.primaryValue || super.value`). -/
def Modification.value (m : Modification) : Str :=
  if m.modValue.primaryValue ≠ [] then m.modValue.primaryValue else m.valueField

/-- `Modification.mass` getter (`modValue.mass || super.mass || 0.0`). -/
def Modification.mass (m : Modification) : JsNum :=
  match jsRatOpt0 m.modValue.mass with
  | some q => q
  | none => (jsRatOpt0 m.baseMass).getD JsNum.zero

/-- `Modification.observedMass` getter. -/
def Modification.observedMass (m : Modification) : Option JsNum := m.modValue.observedMass

/-- `Modification.ambiguityGroup` getter. -/
def Modification.ambiguityGroup (m : Modification) : Option Str :=
  match m.modValue.ambiguityGroup with
  | some g => some g
  | none => m.ambiguityGroupF

/-- `Modification.isAmbiguityRef` getter. -/
def Modification.isAmbiguityRef (m : Modification) : Bool :=
  m.modValue.isAmbiguityRef || m.isAmbiguityRefF

/-- `Modification.synonyms` getter. -/
def Modification.synonyms (m : Modification) : List Str := m.modValue.synonyms

/-- `Modification.infoTags` getter. -/
def Modification.infoTags (m : Modification) : List Str := m.modValue.infoTags

/-- `Modification.crosslinkId` getter. -/
def Modification.crosslinkId (m : Modification) : Option Str :=
  match m.modValue.crossLinkId with
  | some s => some s
  | none => m.crosslinkIdF

/-- `Modification.isCrosslinkRef` getter. -/
def Modification.isCrosslinkRef (m : Modification) : Bool :=
  m.modValue.isCrosslinkRef || m.isCrosslinkRefF

/-- `Modification.source` getter (`modValue.source || this._source`, and the
private `_source` is always `null`). -/
def Modification.source (m : Modification) : Option Str := m.modValue.source

/-- `Modification.isBranchRef` getter. -/
def Modification.isBranchRef (m : Modification) : Bool :=
  m.modValue.isBranchRef || m.isBranchRefF

/-- `Modification.isBranch` getter. -/
def Modification.isBranch (m : Modification) : Bool :=
  m.modValue.isBranch || m.isBranchF

/-- `Modification.hasAmbiguity` getter. -/
def Modification.hasAmbiguity (m : Modification) : Bool :=
  m.modValue.pipeValues.any (·.type == PipeValue.AMBIGUITY)

/-- One step of the pipe-value emission loop of `Modification.toProforma`:
the accumulator is (emitted parts, the `seen` set in insertion order). -/
def Modification.toProformaStep (acc : List Str × List Str) (pv : PipeValue) : List Str × List Str :=
  let (parts, seen) := acc
  let (mod_part, seen) :=
    match pv.source with
    | some src =>
      let base := src ++ [':']
      match jsRatOpt0 pv.mass with
      | some q =>
        if q.isPos then (base ++ '+' :: numToStr q, seen ++ ['+' :: numToStr q])
        else (base ++ '-' :: numToStr q, seen ++ [numToStr q])
      | none => (base ++ pv.value, seen)
    | none =>
      match jsRatOpt0 pv.mass with
      | some q =>
        if q.isPos then ('+' :: numToStr q, seen) else (numToStr q, seen)
      | none =>
        if pv.type == PipeValue.SYNONYM then (pv.value, seen)
        else if !strHas pv.value '#' then (pv.value, seen)
        else ([], seen)
  let mod_part :=
    if pv.type == PipeValue.CROSSLINK && optStrTruthy pv.crosslinkId then
      mod_part ++ '#' :: pv.crosslinkId.getD []
    else if pv.type == PipeValue.BRANCH && pv.isBranch then
      mod_part ++ "#BRANCH".toList
    else if pv.type == PipeValue.AMBIGUITY && optStrTruthy pv.ambiguityGroup then
      let score_str :=
        match pv.localizationScore with
        | some q => '(' :: toFixed2 q ++ [')']
        | none => []
      mod_part ++ '#' :: (pv.ambiguityGroup.getD []) ++ score_str
    else mod_part
  if seen.contains mod_part then (parts, seen)
  else (parts ++ [mod_part], seen ++ [mod_part])

/-- `Modification.toProforma` (the `modValue`-absent fallback of the source is
unreachable: the embedding always constructs a `ModificationValue`). -/
def Modification.toProforma (m : Modification) : Str :=
  List.intercalate ['|'] (m.modValue.pipeValues.foldl Modification.toProformaStep ([], [])).1

/-- The `GlobalModification` entity: a `Modification` plus target residues and
the global-modification flavor. -/
structure GlobalModification where
  mod : Modification
  targetResidues : Option (List Str) := none
  globalModType : String := "isotope"
  deriving DecidableEq, Repr

/-- The `GlobalModification` constructor (its mod-type validity throw is
unreachable: the parser passes only the literals `"fixed"` / `"isotope"`). -/
def GlobalModification.make (uid : Nat) (value : Str)
    (target_residues : Option (List Str)) (mod_type : String) : GlobalModification :=
  let m := Modification.make uid value none "global" false 0 JsNum.zero none false false false
    none false false none none none none
  let m := { m with modValue := ModificationValue.make value none }
  { mod := m, targetResidues := target_residues, globalModType := mod_type }

/-- `GlobalModification.toProforma`. -/
def GlobalModification.toProforma (g : GlobalModification) : Str :=
  if g.globalModType == "isotope" then '<' :: g.mod.toProforma ++ ['>']
  else
    let mod_value := g.mod.toProforma
    let mod_str := if mod_value.head? ≠ some '[' then '[' :: mod_value ++ [']'] else mod_value
    let targets :=
      match g.targetResidues with
      | some l => List.intercalate [','] l
      | none => []
    '<' :: mod_str ++ '@' :: targets ++ ['>']

/-! ## `proforma.ts`: patterns and `_createModification` -/

/-- `SequenceAmbiguity` from `proforma.ts`. -/
structure SequenceAmbiguity where
  value : Str
  position : Int
  deriving DecidableEq, Repr

namespace ProFormaParser

/-- `MASS_SHIFT_PATTERN` = `^[+-]\d+(\.\d+)?$`. -/
def MASS_SHIFT_PATTERN (s : Str) : Bool :=
  match s with
  | c :: rest =>
    (c == '+' || c == '-') &&
      (let (ds, rest₂) := takeDigits rest
       (!ds.isEmpty) &&
         (match rest₂ with
          | [] => true
          | '.' :: rest₃ =>
            let (fs, rest₄) := takeDigits rest₃
            (!fs.isEmpty) && rest₄.isEmpty
          | _ => false))
  | [] => false

/-- `[A-Za-z0-9]`. -/
def isAlnumChar (c : Char) : Bool :=
  ('A' ≤ c && c ≤ 'Z') || ('a' ≤ c && c ≤ 'z') || c.isDigit

/-- The `XL[A-Za-z0-9]+` core of the crosslink patterns. -/
def crosslinkIdShape (t : Str) : Bool :=
  match t with
  | 'X' :: 'L' :: rest => (!rest.isEmpty) && rest.all isAlnumChar
  | _ => false

/-- Split at the first occurrence of `c`. -/
def splitFirst (c : Char) : Str → Option (Str × Str)
  | [] => none
  | d :: rest =>
    if d == c then some ([], rest)
    else (splitFirst c rest).map (fun p => (d :: p.1, p.2))

/-- Split at the last occurrence of `c`. -/
def splitLast (c : Char) (s : Str) : Option (Str × Str) :=
  match splitFirst c s.reverse with
  | some (a, b) => some (b.reverse, a.reverse)
  | none => none

/-- `CROSSLINK_REF_PATTERN.test` = `^#(XL[A-Za-z0-9]+)$`. -/
def CROSSLINK_REF_PATTERN (s : Str) : Bool :=
  match s with
  | '#' :: t => crosslinkIdShape t
  | _ => false

/-- `CROSSLINK_PATTERN.exec` = `^([^#]+)#(XL[A-Za-z0-9]+)$`
(the two capture groups when the pattern matches). -/
def CROSSLINK_PATTERN (s : Str) : Option (Str × Str) :=
  match splitFirst '#' s with
  | some (a, b) => if (!a.isEmpty) && crosslinkIdShape b then some (a, b) else none
  | none => none

/-- `BRANCH_PATTERN.exec` = `^([^#]+)#BRANCH$` (capture group 1). -/
def BRANCH_PATTERN (s : Str) : Option Str :=
  match splitFirst '#' s with
  | some (a, b) => if (!a.isEmpty) && b = "BRANCH".toList then some a else none
  | none => none

/-- `BRANCH_REF_PATTERN.test` = `^#BRANCH$`. -/
def BRANCH_REF_PATTERN (s : Str) : Bool := s = "#BRANCH".toList

/-- The `[A-Za-z0-9]+(?:\(([0-9.]+)\))?$` tail of the ambiguity regexes:
the label and the optional score text. -/
def labelScore (t : Str) : Option (Str × Option Str) :=
  let lab := t.takeWhile isAlnumChar
  let rest := t.dropWhile isAlnumChar
  if lab.isEmpty then none
  else
    match rest with
    | [] => some (lab, none)
    | '(' :: r =>
      let ds := r.takeWhile (fun c => c.isDigit || c == '.')
      let r₂ := r.dropWhile (fun c => c.isDigit || c == '.')
      if (!ds.isEmpty) && r₂ = [')'] then some (lab, some ds) else none
    | _ => none

/-- `exec` of `/(.+?)#([A-Za-z0-9]+)(?:\(([0-9.]+)\))?$/`: a valid tail cannot
contain `#`, so the matching separator is the last `#`; the lazy group 1 is
everything before it and must be non-empty. -/
def ambiguityMatch (s : Str) : Option (Str × Str × Option Str) :=
  match splitLast '#' s with
  | some (pre, tail) =>
    if pre.isEmpty then none
    else (labelScore tail).map (fun p => (pre, p.1, p.2))
  | none => none

/-- `exec` of `/#([A-Za-z0-9]+)(?:\(([0-9.]+)\))?$/`. -/
def ambiguityRefMatch (s : Str) : Option (Str × Option Str) :=
  match splitLast '#' s with
  | some (_, tail) => labelScore tail
  | none => none

/-- The options bag of `_createModification`. -/
structure CreateModOptions where
  isTerminal : Bool := false
  isAmbiguous : Bool := false
  isLabile : Bool := false
  isUnknownPosition : Bool := false
  crosslinkId : Option Str := none
  isCrosslinkRef : Bool := false
  isBranch : Bool := false
  isBranchRef : Bool := false
  isGap : Bool := false
  inRange : Bool := false
  rangeStart : Option Int := none
  rangeEnd : Option Int := none
  deriving DecidableEq, Repr

/-- `ProFormaParser._createModification`; `uid` models the identity of the
freshly constructed JS object. -/
def createModification (uid : Nat) (modStr : Str) (opts : CreateModOptions) : Modification :=
  let modValue := ModificationValue.make modStr none
  let modType :=
    if opts.isTerminal then "terminal"
    else if opts.isAmbiguous then "ambiguous"
    else if opts.isLabile then "labile"
    else if opts.isUnknownPosition then "unknown_position"
    else if optStrTruthy opts.crosslinkId || opts.isCrosslinkRef then "crosslink"
    else if opts.isBranch || opts.isBranchRef then "branch"
    else if opts.isGap then "gap"
    else "static"
  if MASS_SHIFT_PATTERN modStr && !strHas modStr '#' then
    let massValue := (parseFloat modStr).getD JsNum.zero
    if opts.isGap then
      Modification.make uid modStr none "gap" false 0 massValue none false false false
        none false opts.inRange opts.rangeStart opts.rangeEnd none (some modValue)
    else if opts.inRange then
      Modification.make uid modStr none "variable" false 0 massValue none false false false
        none false true opts.rangeStart opts.rangeEnd none (some modValue)
    else
      Modification.make uid ("Mass:".toList ++ modStr) none "static" false 0 massValue none
        false false false none false opts.inRange opts.rangeStart opts.rangeEnd none (some modValue)
  else
    let ambGuard := strHas modStr '#' && !opts.isCrosslinkRef && !opts.isBranch &&
      !opts.isBranchRef && !optStrTruthy opts.crosslinkId
    let ambDef :=
      if ambGuard then
        match ambiguityMatch modStr with
        | some (pre, label, score) =>
          if ("XL".toList).isPrefixOf label then none else some (pre, label, score)
        | none => none
      else none
    let ambRef :=
      if ambGuard then
        match ambiguityRefMatch modStr with
        | some (label, score) =>
          if ("XL".toList).isPrefixOf label then none else some (label, score)
        | none => none
      else none
    match ambDef with
    | some (pre, label, score) =>
      Modification.make uid pre none "ambiguous" false 0 JsNum.zero none false false false
        (some label) false opts.inRange opts.rangeStart opts.rangeEnd
        (score.bind parseFloat) (some modValue)
    | none =>
      match ambRef with
      | some (label, score) =>
        Modification.make uid [] none "ambiguous" false 0 JsNum.zero none false false false
          (some label) true opts.inRange opts.rangeStart opts.rangeEnd
          (score.bind parseFloat) (some modValue)
      | none =>
        Modification.make uid modStr none modType opts.isLabile 0 JsNum.zero opts.crosslinkId
          opts.isCrosslinkRef opts.isBranchRef opts.isBranch none false opts.inRange
          opts.rangeStart opts.rangeEnd none (some modValue)

end ProFormaParser

/-- The positional modification map `Record<number, Modification[]>`. A key of
`none` models the JS property key `"null"` that the range-push loop creates
when a range starts at residue 0 (`rangeStart || null` collapses 0 to null). -/
abbrev ModMap := List (Option Int × List Modification)

/-- `getModsAtPosition(pos).push(mod)`: append to an existing key or create it
(JS object keys keep first-insertion order for these accesses). -/
def pushMod : ModMap → Option Int → Modification → ModMap
  | [], k, m => [(k, [m])]
  | (k', l) :: rest, k, m =>
    if k' = k then (k', l ++ [m]) :: rest else (k', l) :: pushMod rest k m

/-- Lookup in a `ModMap`. -/
def mapGet (map : ModMap) (k : Option Int) : Option (List Modification) :=
  match map with
  | [] => none
  | (k', l) :: rest => if k' = k then some l else mapGet rest k

/-- JS `ToNumber(null) = 0`, applied to the range-push loop bounds. -/
def jsKeyNum : Option Int → Int
  | some n => n
  | none => 0

/-- Rest of the range-push loop after its first iteration (`pos` is a plain
number from the second iteration on). -/
def pushRangeInts : Nat → ModMap → Int → Int → Modification → ModMap
  | 0, map, _, _, _ => map
  | fuel + 1, map, pos, stop, m =>
    if pos ≤ stop then pushRangeInts fuel (pushMod map (some pos) m) (pos + 1) stop m
    else map

/-- `for (let pos = mod.rangeStart!; pos <= mod.rangeEnd!; pos++) push(pos, mod)`:
the first key is the raw `rangeStart` (possibly `null`), and the loop
arithmetic coerces `null` to 0. -/
def pushRange (map : ModMap) (m : Modification) : ModMap :=
  let start := jsKeyNum m.rangeStart
  let stop := jsKeyNum m.rangeEnd
  if start ≤ stop then pushRangeInts ((stop - start).toNat + 1) (pushMod map m.rangeStart m) (start + 1) stop m
  else map

namespace ProFormaParser

/-- One recorded modification-creation-and-push of the parser. The parser
records these in program order; `buildMap` then replays them, assigning the
creation index as the `uid` (modelling JS object identity). A modification
that the source creates but never pushes (a site modification with an empty
base sequence) produces no event, which is observationally identical. -/
inductive PushEvent where
  | single (k : Option Int) (modStr : Str) (opts : CreateModOptions)
  | ranged (modStr : Str) (opts : CreateModOptions)
  deriving DecidableEq, Repr

/-- Replay one event onto the map, with `i` as the fresh uid. -/
def applyEvent (map : ModMap) (i : Nat) (ev : PushEvent) : ModMap :=
  match ev with
  | .single k modStr opts => pushMod map k (createModification i modStr opts)
  | .ranged modStr opts => pushRange map (createModification i modStr opts)

/-- Replay all events starting from uid `i`. -/
def buildMapAux : ModMap → Nat → List PushEvent → ModMap
  | map, _, [] => map
  | map, i, ev :: rest => buildMapAux (applyEvent map i ev) (i + 1) rest

/-- Build the positional modification map from the recorded events. -/
def buildMap (events : List PushEvent) : ModMap := buildMapAux [] 0 events

/-- Index of the first occurrence of `c` at or after position `i`. -/
def indexOfFrom (c : Char) (s : Str) (i : Nat) : Option Nat :=
  (indexOfChar c (s.drop i)).map (· + i)

/-- The square-bracket balance scan
`while (j < len && bracketCount > 0) ...`; returns the final `j` and count. -/
def bracketScan : Nat → Str → Nat → Nat → Nat × Nat
  | 0, _, j, bc => (j, bc)
  | fuel + 1, s, j, bc =>
    if j < s.length ∧ bc > 0 then
      let bc' :=
        match s.get? j with
        | some '[' => bc + 1
        | some ']' => bc - 1
        | _ => bc
      bracketScan fuel s (j + 1) bc'
    else (j, bc)

/-- Phase 1: the `while (proformaStr.startsWith("<"))` global-modification
loop. -/
def parseGlobalModsAux : Nat → Str → List GlobalModification →
    Except String (Str × List GlobalModification)
  | 0, _, _ => .error "out of fuel"
  | fuel + 1, s, acc =>
    if s.head? = some '<' then
      match indexOfChar '>' s with
      | none => .error "Unclosed global modification angle bracket"
      | some endBracket =>
        let globalModStr := substring s 1 endBracket
        let rest := s.drop (endBracket + 1)
        if strHas globalModStr '@' then
          let parts := splitOnChar '@' globalModStr
          let modPart := (parts.head?).getD []
          let targets := ((parts.drop 1).head?).getD []
          let modValue :=
            if modPart.head? = some '[' ∧ modPart.getLast? = some ']' then
              substring modPart 1 (modPart.length - 1)
            else modPart
          let targetResidues := splitOnChar ',' targets
          parseGlobalModsAux fuel rest
            (acc ++ [GlobalModification.make 0 modValue (some targetResidues) "fixed"])
        else
          parseGlobalModsAux fuel rest (acc ++ [GlobalModification.make 0 globalModStr none "isotope"])
    else .ok (s, acc)

/-- Phase 2: the unknown-position walk (run only when the string contains a
`?`). Returns the index `i` at which the walk stopped (the caller drops that
many characters) and the `-4` push events emitted when the collected bracket
groups were followed by `?`. -/
def unknownPosLoop : Nat → Str → Nat → List Str → Except String (Nat × List PushEvent)
  | 0, _, _, _ => .error "out of fuel"
  | fuel + 1, s, i, mods =>
    if i < s.length then
      if s.get? i ≠ some '[' then
        if mods ≠ [] ∧ s.get? i = some '?' then
          .ok (i + 1, mods.map (fun modStr => PushEvent.single (some (-4)) modStr { isUnknownPosition := true }))
        else .ok (i, [])
      else
        let (j, bc) := bracketScan (s.length + 1) s (i + 1) 1
        if bc > 0 then .error ("Unclosed bracket at position " ++ toString i)
        else
          let modStr := substring s (i + 1) (j - 1)
          let (j₂, count) :=
            if s.get? j = some '^' then
              let ds := (s.drop (j + 1)).takeWhile (·.isDigit)
              if ds.length > 0 then (j + 1 + ds.length, ((parseIntJs ds).getD 1).toNat)
              else (j + 1, 1)
            else (j, 1)
          unknownPosLoop fuel s j₂ (mods ++ List.replicate count modStr)
    else .ok (i, [])

/-- Phase 3: the labile-modification loop over leading `{...}` groups. -/
def labileLoop : Nat → Str → Nat → List PushEvent → Except String (Nat × List PushEvent)
  | 0, _, _, _ => .error "out of fuel"
  | fuel + 1, s, i, acc =>
    if i < s.length ∧ s.get? i = some '{' then
      match indexOfFrom '}' s i with
      | none => .error ("Unclosed curly brace at position " ++ toString i)
      | some j =>
        let modStr := substring s (i + 1) j
        if ("Glycan:".toList).isPrefixOf modStr then
          labileLoop fuel s (j + 1) (acc ++ [PushEvent.single (some (-3)) modStr { isLabile := true }])
        else
          .error ("Labile modification must start with Glycan:, found: " ++ modStr.asString)
    else .ok (i, acc)

/-- The left-to-right scan for a `-` at square-bracket depth 0 (phase 4). -/
def findTermHyphenAux : Str → Int → Nat → Option Nat
  | [], _, _ => none
  | c :: rest, level, idx =>
    if c == '[' then findTermHyphenAux rest (level + 1) (idx + 1)
    else if c == ']' then findTermHyphenAux rest (level - 1) (idx + 1)
    else if c == '-' ∧ level = 0 then some idx
    else findTermHyphenAux rest level (idx + 1)

/-- The right-to-left scan for a `-` at depth 0 (phase 5; scanning backwards
counts `]` as opening and `[` as closing). Returns an index in the original
string. -/
def findTermHyphenRevAux : Str → Int → Nat → Option Nat
  | [], _, _ => none
  | c :: rest, level, idx =>
    if c == ']' then findTermHyphenRevAux rest (level + 1) (idx + 1)
    else if c == '[' then findTermHyphenRevAux rest (level - 1) (idx + 1)
    else if c == '-' ∧ level = 0 then some idx
    else findTermHyphenRevAux rest level (idx + 1)

/-- Right-to-left hyphen search over `s`. -/
def findTermHyphenRev (s : Str) : Option Nat :=
  (findTermHyphenRevAux s.reverse 0 0).map (fun idx => s.length - 1 - idx)

/-- The terminal-part walk collecting every balanced `[...]` interior
(phases 4 and 5 share it). -/
def collectBracketMods : Nat → Str → Nat → List Str → List Str
  | 0, _, _, acc => acc
  | fuel + 1, part, pos, acc =>
    if pos < part.length then
      if part.get? pos = some '[' then
        let (endPos, depth) := bracketScan (part.length + 1) part (pos + 1) 1
        if depth = 0 then
          collectBracketMods fuel part endPos (acc ++ [substring part (pos + 1) (endPos - 1)])
        else collectBracketMods fuel part endPos acc
      else collectBracketMods fuel part (pos + 1) acc
    else acc

/-- The inner loop at a range close: zero or more following `[...]` groups
become range modifications. Returns the index after the loop and the events. -/
def rangeModsLoop : Nat → Str → Nat → Int → Int → List PushEvent → Nat × List PushEvent
  | 0, _, j, _, _, acc => (j, acc)
  | fuel + 1, s, j, rs, re, acc =>
    if j < s.length ∧ s.get? j = some '[' then
      let (j₂, bc) := bracketScan (s.length + 1) s (j + 1) 1
      if bc = 0 then
        let modStr := substring s (j + 1) (j₂ - 1)
        rangeModsLoop fuel s j₂ rs re
          (acc ++ [PushEvent.ranged modStr { inRange := true, rangeStart := some rs, rangeEnd := some re }])
      else rangeModsLoop fuel s j₂ rs re acc
    else (j, acc)

/-- Phase 6: the main residue walk. `currentPosition` is declared in the
source but never incremented, so every `SequenceAmbiguity` gets position 0. -/
def mainWalk : Nat → Str → Nat → Str → Bool → List Int → List PushEvent →
    List SequenceAmbiguity → Except String (Str × List PushEvent × List SequenceAmbiguity)
  | 0, _, _, _, _, _, _, _ => .error "out of fuel"
  | fuel + 1, s, i, base, nextModIsGap, rangeStack, events, ambs =>
    if i < s.length then
      if s.get? i = some '(' ∧ s.get? (i + 1) = some '?' then
        match indexOfFrom ')' s (i + 2) with
        | none => .error "Unclosed sequence ambiguity parenthesis"
        | some cp =>
          let ambiguousSeq := substring s (i + 2) cp
          mainWalk fuel s (cp + 1) base nextModIsGap rangeStack events
            (ambs ++ [{ value := ambiguousSeq, position := 0 }])
      else if s.get? i = some '(' then
        mainWalk fuel s (i + 1) base nextModIsGap (rangeStack ++ [(base.length : Int)]) events ambs
      else if s.get? i = some ')' then
        match rangeStack.getLast? with
        | none => .error "Unmatched closing parenthesis"
        | some rangeStart =>
          let rangeEnd : Int := (base.length : Int) - 1
          let (j, events) := rangeModsLoop (s.length + 1) s (i + 1) rangeStart rangeEnd events
          mainWalk fuel s j base nextModIsGap rangeStack.dropLast events ambs
      else if s.get? i = some '[' then
        let (j, bc) := bracketScan (s.length + 1) s (i + 1) 1
        if bc > 0 then .error ("Unclosed square bracket at position " ++ toString i)
        else
          let modStr := substring s (i + 1) (j - 1)
          let opts : CreateModOptions :=
            if nextModIsGap then { isGap := true }
            else if CROSSLINK_REF_PATTERN modStr then { isCrosslinkRef := true }
            else if BRANCH_REF_PATTERN modStr then { isBranchRef := true }
            else
              match CROSSLINK_PATTERN modStr with
              | some (_, cid) => { crosslinkId := some cid }
              | none =>
                match BRANCH_PATTERN modStr with
                | some _ => { isBranch := true }
                | none => {}
          let events :=
            if base ≠ [] then events ++ [PushEvent.single (some ((base.length : Int) - 1)) modStr opts]
            else events
          mainWalk fuel s j base false rangeStack events ambs
      else if s.get? i = some '{' then
        match indexOfFrom '}' s i with
        | none => .error ("Unclosed curly brace at position " ++ toString i)
        | some j =>
          let modStr := substring s (i + 1) j
          let events :=
            if base ≠ [] then events ++ [PushEvent.single (some ((base.length : Int) - 1)) modStr { isAmbiguous := true }]
            else events
          mainWalk fuel s (j + 1) base nextModIsGap rangeStack events ambs
      else
        match s.get? i with
        | some c =>
          let isGap := c = 'X' ∧ s.get? (i + 1) = some '['
          mainWalk fuel s (i + 1) (base ++ [c]) (if isGap then true else nextModIsGap) rangeStack events ambs
        | none => .ok (base, events, ambs)
    else .ok (base, events, ambs)

/-- `ProFormaParser.parse`: the six phases producing the creation/push events
in program order, then `buildMap` replaying them. -/
def parse (s₀ : Str) : Except String (Str × ModMap × List GlobalModification × List SequenceAmbiguity) := do
  let (s₁, globalMods) ← parseGlobalModsAux (s₀.length + 1) s₀ []
  let (s₂, ev₁) ←
    if strHas s₁ '?' then do
      let (i, ev) ← unknownPosLoop (s₁.length + 1) s₁ 0 []
      pure (s₁.drop i, ev)
    else pure (s₁, [])
  let (i₃, ev₂) ← labileLoop (s₂.length + 1) s₂ 0 []
  let s₃ := s₂.drop i₃
  let (s₄, ev₃) ←
    if s₃.head? = some '[' then
      match findTermHyphenAux s₃ 0 0 with
      | some terminatorPos =>
        let nTerminalPart := s₃.take terminatorPos
        let rest := s₃.drop (terminatorPos + 1)
        let modStrs := collectBracketMods (nTerminalPart.length + 1) nTerminalPart 0 []
        pure (rest, modStrs.map (fun ms => PushEvent.single (some (-1)) ms { isTerminal := true }))
      | none => pure (s₃, [])
    else pure (s₃, [])
  let (s₅, ev₄) ←
    if strHas s₄ '-' then
      match findTermHyphenRev s₄ with
      | some terminatorPos =>
        let cTerminalPart := s₄.drop (terminatorPos + 1)
        let rest := s₄.take terminatorPos
        let modStrs := collectBracketMods (cTerminalPart.length + 1) cTerminalPart 0 []
        pure (rest, modStrs.map (fun ms => PushEvent.single (some (-2)) ms { isTerminal := true }))
      | none => pure (s₄, [])
    else pure (s₄, [])
  let (base, ev₅, ambs) ← mainWalk (s₅.length + 1) s₅ 0 [] false [] [] []
  let events := ev₁ ++ ev₂ ++ ev₃ ++ ev₄ ++ ev₅
  pure (base, buildMap events, globalMods, ambs)

end ProFormaParser

/-! ## `amino_acid.ts` and `sequence.ts` -/

/-- The `AminoAcid` entity (fields of `BaseBlock` flattened). -/
structure AminoAcid where
  value : Str
  position : Option Int := none
  mass : Option JsNum := none
  mods : List Modification := []
  deriving DecidableEq, Repr

/-- The `AminoAcid` constructor: a code without a mass-table entry (and with
no explicit mass argument, never supplied in the embedded paths) throws. -/
def AminoAcid.make (value : Str) (position : Option Int) : Except String AminoAcid :=
  match AA_mass value with
  | some m => .ok { value := value, position := position, mass := some m }
  | none => .error ("Unknown amino acid " ++ value.asString ++ " and no mass provided")

/-- `AminoAcid.addModification`. -/
def AminoAcid.addModification (aa : AminoAcid) (m : Modification) : AminoAcid :=
  { aa with mods := aa.mods ++ [m] }

/-- The `Sequence` entity (single chain; the multi-chain `chains` list is not
modelled because no claim exercises `//` inputs). -/
structure Sequence where
  seq : List AminoAcid := []
  mods : ModMap := []
  globalMods : List GlobalModification := []
  sequenceAmbiguities : List SequenceAmbiguity := []
  seqLength : Nat := 0
  deriving DecidableEq, Repr

/-- `new Sequence(baseSequence)` on a parser base string: `_parseSequence`
creates one residue per character with its index as position (the enclosure
handling of `_sequenceIterator` is vacuous here because a base string contains
no `[`, `]`, `(`, `)`, `{` or `}` — the parser consumed them all). -/
def buildResiduesAux : Nat → Str → Except String (List AminoAcid)
  | _, [] => .ok []
  | i, c :: rest => do
    let aa ← AminoAcid.make [c] (some (i : Int))
    let restAAs ← buildResiduesAux (i + 1) rest
    .ok (aa :: restAAs)

/-- Residue list of a base sequence string. -/
def buildResidues (base : Str) : Except String (List AminoAcid) := buildResiduesAux 0 base

/-- One attachment step of `Sequence.fromProforma`: sentinel keys go to the
sequence-level map, other keys index the residue array. A `none` key is the
JS `"null"` property whose `parseInt` is `NaN`, and indexing by `NaN` (or by
any out-of-range position) makes the JS code dereference `undefined`. -/
def Sequence.attachOne (sq : Sequence) (k : Option Int) (m : Modification) : Except String Sequence :=
  match k with
  | none => .error "TypeError: cannot read properties of undefined"
  | some pos =>
    if pos = -1 ∨ pos = -2 ∨ pos = -3 ∨ pos = -4 then
      .ok { sq with mods := pushMod sq.mods (some pos) m }
    else
      if h : 0 ≤ pos ∧ pos.toNat < sq.seq.length then
        .ok { sq with seq := sq.seq.set pos.toNat ((sq.seq.get ⟨pos.toNat, h.2⟩).addModification m) }
      else .error "TypeError: cannot read properties of undefined"

/-- Attach every modification of one map entry. -/
def Sequence.attachList (sq : Sequence) (k : Option Int) : List Modification → Except String Sequence
  | [] => .ok sq
  | m :: rest => do
    let sq ← sq.attachOne k m
    sq.attachList k rest

/-- Attach a whole parsed modification map. -/
def Sequence.attachAll (sq : Sequence) : ModMap → Except String Sequence
  | [] => .ok sq
  | (k, l) :: rest => do
    let sq ← sq.attachList k l
    sq.attachAll rest

/-- The non-multi-chain branch of `Sequence.fromProforma` (no claim exercises
`//`; the chimeric and charge handling of the published package is absent
from the provided sources and is modelled separately below). -/
def Sequence.fromProforma (s : Str) : Except String Sequence := do
  let (base, modifications, globalMods, ambs) ← ProFormaParser.parse s
  let residues ← buildResidues base
  let sq : Sequence :=
    { seq := residues, mods := [], globalMods := globalMods,
      sequenceAmbiguities := ambs, seqLength := residues.length }
  sq.attachAll modifications

/-- `Sequence.toStrippedString`. -/
def Sequence.toStrippedString (sq : Sequence) : Str :=
  sq.seq.foldr (fun aa acc => aa.value ++ acc) []

/-- The `ranges` collection of `_chainToProforma`: every residue contributes
its in-range modifications (with both bounds non-null). -/
def Sequence.collectRanges (sq : Sequence) : List (Int × Int × Modification) :=
  sq.seq.foldl
    (fun acc aa =>
      acc ++ (aa.mods.filter (fun m => m.inRange && m.rangeStart ≠ none && m.rangeEnd ≠ none)).map
        (fun m => ((m.rangeStart.getD 0), (m.rangeEnd.getD 0), m)))
    []

/-- Stable sort of the ranges by start (`ranges.sort((a, b) => a[0] - b[0])`,
stable in JS engines). -/
def insertRangeByStart (x : Int × Int × Modification) :
    List (Int × Int × Modification) → List (Int × Int × Modification)
  | [] => [x]
  | y :: rest => if y.1 > x.1 then x :: y :: rest else y :: insertRangeByStart x rest

/-- Insertion sort used to model the stable JS sort of `ranges`. -/
def sortRangesByStart : List (Int × Int × Modification) → List (Int × Int × Modification)
  | [] => []
  | x :: rest => insertRangeByStart x (sortRangesByStart rest)

/-- Stable sort of `sequenceAmbiguities` by position. -/
def insertAmbByPos (x : SequenceAmbiguity) : List SequenceAmbiguity → List SequenceAmbiguity
  | [] => [x]
  | y :: rest => if y.position > x.position then x :: y :: rest else y :: insertAmbByPos x rest

/-- Insertion sort modelling the stable JS sort of the ambiguities. -/
def sortAmbsByPos : List SequenceAmbiguity → List SequenceAmbiguity
  | [] => []
  | x :: rest => insertAmbByPos x (sortAmbsByPos rest)

/-- The per-modification bracket/brace wrapping of the serializer (shared by
the residue loop and `getModAndAddToString`). -/
def wrapModStr (m : Modification) : Str :=
  let thisModStr := m.toProforma
  if m.modType == "ambiguous" then
    if !m.hasAmbiguity then
      if m.inRange then '[' :: thisModStr ++ [']'] else '{' :: thisModStr ++ ['}']
    else '[' :: thisModStr ++ [']']
  else '[' :: thisModStr ++ [']']

/-- `Sequence.getModAndAddToString`. -/
def Sequence.getModAndAddToString (aa : AminoAcid) (result : Str) : Str :=
  if aa.mods ≠ [] then result ++ (aa.mods.map wrapModStr).flatten else result

/-- The grouping of unknown-position modifications by their serialized body
(`Map<string, number>` in insertion order). -/
def groupUnknownMods (mods : List Modification) : List (Str × Nat) :=
  mods.foldl
    (fun acc m =>
      let key := m.toProforma
      if acc.any (fun p => p.1 = key) then
        acc.map (fun p => if p.1 = key then (p.1, p.2 + 1) else p)
      else acc ++ [(key, 1)])
    []

/-- The residue loop body of `_chainToProforma` for index `i`; the state is
(result, rangeStart flag, ambiguity index). -/
def Sequence.chainLoopStep (sq : Sequence) (ranges : List (Int × Int × Modification))
    (sortedAmbs : List SequenceAmbiguity) (st : Str × Bool × Nat) (i : Nat) : Str × Bool × Nat :=
  let (result, rangeStart, ambIdx) := st
  let (result, ambIdx) :=
    match sortedAmbs.get? ambIdx with
    | some amb =>
      if amb.position = (i : Int) then
        (result ++ '(' :: '?' :: amb.value ++ [')'], ambIdx + 1)
      else (result, ambIdx)
    | none => (result, ambIdx)
  let (result, rangeStart) :=
    if !rangeStart ∧ ranges.any (fun r => (i : Int) = r.1) then (result ++ ['('], true)
    else (result, rangeStart)
  match sq.seq.get? i with
  | none => (result, rangeStart, ambIdx)
  | some aa =>
    let result := result ++ aa.value
    let result :=
      if aa.mods ≠ [] then
        result ++ (aa.mods.foldl
          (fun acc m =>
            if rangeStart && m.inRange then acc else acc ++ wrapModStr m)
          [])
      else result
    if rangeStart then
      if ranges.any (fun r => (i : Int) = r.2.1) then
        let result := result ++ [')']
        (Sequence.getModAndAddToString aa result, false, ambIdx)
      else (result, rangeStart, ambIdx)
    else (result, rangeStart, ambIdx)

/-- `Sequence._chainToProforma` (single chain: `this` and `chain` coincide). -/
def Sequence.chainToProforma (sq : Sequence) : Str :=
  let result := (sq.globalMods.map GlobalModification.toProforma).flatten
  let ranges := sortRangesByStart sq.collectRanges
  let result :=
    match mapGet sq.mods (some (-4)) with
    | some chainMods =>
      result ++ ((groupUnknownMods chainMods).map
        (fun p =>
          if p.2 > 1 then '[' :: p.1 ++ ']' :: '^' :: natToDigits p.2 ++ ['?']
          else '[' :: p.1 ++ [']', '?'])).flatten
    | none => result
  let result :=
    match mapGet sq.mods (some (-3)) with
    | some labileMods =>
      result ++ ((labileMods.filter (fun m => m.modType == "labile")).map
        (fun m => '{' :: m.toProforma ++ ['}'])).flatten
    | none => result
  let result :=
    match mapGet sq.mods (some (-1)) with
    | some nMods =>
      let nModStr := (nMods.map (fun m => '[' :: m.toProforma ++ [']'])).flatten
      if nModStr ≠ [] then result ++ nModStr ++ ['-'] else result
    | none => result
  let sortedAmbs := sortAmbsByPos sq.sequenceAmbiguities
  let (result, _, _) :=
    (List.range sq.seq.length).foldl (sq.chainLoopStep ranges sortedAmbs) (result, false, 0)
  match mapGet sq.mods (some (-2)) with
  | some cMods =>
    let cModStr := (cMods.map (fun m => '[' :: m.toProforma ++ [']'])).flatten
    if cModStr ≠ [] then result ++ '-' :: cModStr else result
  | none => result

/-- `Sequence.toProforma` for a single chain (`isMultiChain` is false on every
embedded path). -/
def Sequence.toProforma (sq : Sequence) : Str := sq.chainToProforma

/-! ## `mass.ts`, `ion.ts`, `mass_spectrometry.ts` -/

/-- JS numeric falsiness (for numbers that are never `NaN`). -/
def jsNumFalsy (q : JsNum) : Bool := q == JsNum.zero

/-- `calculateMass` from `mass.ts`. A residue mass is "missing" when it is
null or 0 (`!i.mass`); a modification is "missing" when `m.mass !== 0 &&
!m.mass`, which for the embedded getter (a number, never `NaN`) can never
hold — the branch is kept as written. -/
def calculateMass (seq : List AminoAcid) (massDict : Option (List (Str × JsNum)))
    (NTerminus OTerminus : JsNum) (withWater : Bool) : Except String JsNum := do
  let mass₀ : JsNum := if withWater then (H.add H).add O else JsNum.zero
  let total ← seq.foldlM
    (fun (acc : JsNum) (i : AminoAcid) => do
      let acc ←
        if jsRatOpt0 i.mass = none then
          match massDict with
          | some dict =>
            match dict.find? (fun p => p.1 == i.value) with
            | some p => pure (acc.add p.2)
            | none => throw ("Block " ++ i.value.asString ++ " not found in massDict")
          | none =>
            throw ("Block " ++ i.value.asString ++
              " mass is not available in mass attribute and no additional massDict was supplied")
        else pure (acc.add (i.mass.getD JsNum.zero))
      i.mods.foldlM
        (fun (acc : JsNum) (m : Modification) => do
          let mm := Modification.mass m
          if (!jsNumFalsy mm) && jsNumFalsy mm then
            match massDict with
            | some dict =>
              match dict.find? (fun p => p.1 == Modification.value m) with
              | some p => pure (acc.add p.2)
              | none => throw ("Block " ++ (Modification.value m).asString ++ " not found in massDict")
            | none =>
              throw ("Block " ++ (Modification.value m).asString ++
                " mass is not available in mass attribute and no additional massDict was supplied")
          else pure (acc.add mm))
        acc)
    mass₀
  pure ((total.add NTerminus).add OTerminus)

/-- The slice branch of `Sequence.getItem` (`key = [start, end]`): a fresh
`Sequence` (constructed with `parse = false`) whose `seq` is the slice. -/
def Sequence.getItemSlice (sq : Sequence) (start stop : Nat) : Sequence :=
  let s := (sq.seq.drop start).take (stop - start)
  { seq := s, seqLength := s.length }

/-- Replace a whole map entry (`Map.prototype.set`). -/
def mapSet (map : ModMap) (k : Option Int) (l : List Modification) : ModMap :=
  match map with
  | [] => [(k, l)]
  | (k', l') :: rest => if k' = k then (k, l) :: rest else (k', l') :: mapSet rest k l

/-- The `Ion` entity: the copied `Sequence` plus the ion-specific fields. -/
structure Ion where
  base : Sequence
  charge : Int := 1
  ion_type : Option Str := none
  fragment_number : Option Int := none
  mods : ModMap := []
  has_labile : Bool := false
  deriving DecidableEq, Repr

/-- The `Ion` constructor applied to a `Sequence` (the copy branch of the
`Sequence` constructor, then the modification re-indexing loop; the
`if (!(i in this.mods))` test is always true on a JS `Map`, so each push first
resets the entry — only a residue's last modification survives). -/
def Ion.ofSequence (seq : Sequence) (charge : Int) (ion_type : Option Str)
    (fragment_number : Option Int) : Ion :=
  let (mods, hasLab) :=
    seq.seq.enum.foldl
      (fun (st : ModMap × Bool) (p : Nat × AminoAcid) =>
        p.2.mods.foldl
          (fun (st : ModMap × Bool) (m : Modification) =>
            (mapSet st.1 (some (p.1 : Int)) [m], st.2 || m.labile))
          st)
      ([], false)
  { base := seq, charge := charge, ion_type := ion_type,
    fragment_number := fragment_number, mods := mods, has_labile := hasLab }

/-- `new Ion(block, ...)` on a single `AminoAcid` (what
`sequence.getItem(i)` returns): the `Sequence` constructor takes its parsing
branch and iterates the non-iterable block, so JS throws a `TypeError`. -/
def Ion.ofBlock (_ : AminoAcid) (_ : Int) (_ : Option Str) (_ : Option Int) : Except String Ion :=
  .error "TypeError: seq is not iterable"

/-- `fragmentNonLabile` from `mass_spectrometry.ts` with the generator
materialized: the left ion wraps the slice `getItem([0, i])`, the right ion is
built from `getItem(i)` — the single residue at index `i`. -/
def fragmentNonLabile (sequence : Sequence) (fragmentType : Str) :
    Except String (List (Ion × Ion)) :=
  (List.range' 1 (sequence.seqLength - 1)).mapM
    (fun i => do
      let left := Ion.ofSequence (sequence.getItemSlice 0 i) 1
        ((fragmentType.get? 0).map (fun c => [c])) (some (i : Int))
      let right ←
        match sequence.seq.get? i with
        | some aa =>
          Ion.ofBlock aa 1 ((fragmentType.get? 1).map (fun c => [c]))
            (some ((sequence.seqLength : Int) - (i : Int)))
        | none => .error "TypeError: seq is not iterable"
      pure (left, right))

/-! ## Spec-modelled chimeric layer

The published package's `Sequence.fromProforma` splits chimeric input and
strips charge state before calling `ProFormaParser`; that code is absent from
the provided sources (the test suite imports `splitChimericProforma` from
`sequence.ts` and the README documents `charge` / `peptidoforms`), so it is
modelled here from the spec. -/

/-- Modelled from the spec: `splitChimericProforma` (§4.5), absent from the
provided `sequence.ts` — split on `+` at top level, respecting `[]`, `()` and
curly-brace nesting. -/
def splitChimericAux : Str → Int → Str → List Str → List Str
  | [], _, cur, acc => acc ++ [cur]
  | c :: rest, depth, cur, acc =>
    if c == '[' ∨ c == '(' ∨ c == '{' then splitChimericAux rest (depth + 1) (cur ++ [c]) acc
    else if c == ']' ∨ c == ')' ∨ c == '}' then splitChimericAux rest (depth - 1) (cur ++ [c]) acc
    else if c == '+' ∧ depth = 0 then splitChimericAux rest depth [] (acc ++ [cur])
    else splitChimericAux rest depth (cur ++ [c]) acc

/-- Modelled from the spec: `splitChimericProforma` — each top-level `+`
separates one peptidoform. -/
def splitChimericProforma (s : Str) : List Str := splitChimericAux s 0 [] []

/-- Scan for the last `/` at top-level bracket depth. -/
def lastSlashDepth0Aux : Str → Int → Nat → Option Nat → Option Nat
  | [], _, _, best => best
  | c :: rest, depth, idx, best =>
    if c == '[' ∨ c == '(' ∨ c == '{' then lastSlashDepth0Aux rest (depth + 1) (idx + 1) best
    else if c == ']' ∨ c == ')' ∨ c == '}' then lastSlashDepth0Aux rest (depth - 1) (idx + 1) best
    else if c == '/' ∧ depth = 0 then lastSlashDepth0Aux rest depth (idx + 1) (some idx)
    else lastSlashDepth0Aux rest depth (idx + 1) best

/-- Modelled from the spec: the charge / ionic-species stripping of the
published `Sequence.fromProforma` (§4.5 step 3), absent from the provided
`sequence.ts` — strip a trailing `/signedInteger` as the charge and an
immediately following `[ionic]` as the ionic species; the remainder is handed
to `ProFormaParser`. When no such suffix exists, the string is unchanged. -/
def stripChargeAndIonic (s : Str) : Str × Option Int × Option Str :=
  match lastSlashDepth0Aux s 0 0 none with
  | none => (s, none, none)
  | some idx =>
    let before := s.take idx
    let after := s.drop (idx + 1)
    let (sgn, t) : Int × Str :=
      match after with
      | '+' :: r => (1, r)
      | '-' :: r => (-1, r)
      | r => (1, r)
    let (ds, rest) := takeDigits t
    if ds = [] then (s, none, none)
    else
      let charge : Int := sgn * (digitsToNat ds : Int)
      match rest with
      | [] => (before, some charge, none)
      | '[' :: r =>
        if r.getLast? = some ']' then (before, some charge, some r.dropLast)
        else (s, none, none)
      | _ => (s, none, none)

/-- Modelled from the spec: the chimeric branch of the published
`Sequence.fromProforma` (§4.5) — split on top-level `+`, strip each
peptidoform's charge and ionic species, parse the remainder with
`ProFormaParser` (via the provided single-chain `fromProforma`), and pair
each resulting `Sequence` with its charge and ionic species. -/
def fromProformaChimeric (s : Str) :
    Except String (List (Sequence × Option Int × Option Str)) :=
  (splitChimericProforma s).mapM
    (fun piece => do
      let (rem, charge, ionic) := stripChargeAndIonic piece
      let sq ← Sequence.fromProforma rem
      pure (sq, charge, ionic))

/-! ## Helpers for the claim statements -/

/-- End-to-end parse-then-serialize on a `String`. -/
def toProformaStr (s : String) : Except String String :=
  (Sequence.fromProforma s.toList).map (fun sq => (Sequence.toProforma sq).asString)

/-- The specification's notion of a canonical glycan string, written from the
spec's words for comparison with the code's validator: a concatenation of
monosaccharide names, each optionally followed by parenthesized digits
(decided by fuelled search over all tilings). -/
def specGlycanConcat : Nat → Str → Bool
  | _, [] => true
  | 0, _ => false
  | fuel + 1, s =>
    monosaccharides.any (fun name =>
      name.isPrefixOf s &&
        (let rest := s.drop name.length
         specGlycanConcat fuel rest ||
           (match rest with
            | '(' :: r =>
              let (ds, r₂) := takeDigits r
              (!ds.isEmpty) &&
                (match r₂ with
                 | ')' :: r₃ => specGlycanConcat fuel r₃
                 | _ => false)
            | _ => false)))

end Sequal


deriving instance DecidableEq for Except

namespace Sequal

/-! ## Verification scaffolding for the sequence invariant

Observation functions over the positional modification map: the values it
holds and the keys at which a given uid occurs. They are measures used by the
invariant proofs, not translations of source code. -/

/-- All modification values stored in a map. -/
def valsOf : ModMap → List Modification
  | [] => []
  | p :: rest => p.2 ++ valsOf rest

/-- The keys (with multiplicity) at which a modification with uid `v` is
stored. -/
def occsOf : ModMap → Nat → List (Option Int)
  | [], _ => []
  | p :: rest, v => ((p.2.filter (fun m => m.uid == v)).map (fun _ => p.1)) ++ occsOf rest v

/-- The keys the range-push loop visits from `pos` to `stop`. -/
def rangeKeyList : Nat → Int → Int → List (Option Int)
  | 0, _, _ => []
  | fuel + 1, pos, stop =>
    if pos ≤ stop then some pos :: rangeKeyList fuel (pos + 1) stop else []

/-- The keys `pushRange` pushes a modification under. -/
def rangedKeys (m : Modification) : List (Option Int) :=
  if jsKeyNum m.rangeStart ≤ jsKeyNum m.rangeEnd then
    m.rangeStart ::
      rangeKeyList ((jsKeyNum m.rangeEnd - jsKeyNum m.rangeStart).toNat + 1)
        (jsKeyNum m.rangeStart + 1) (jsKeyNum m.rangeEnd)
  else []

/-- The modification a replayed event creates (uid = event index). -/
def eventMod (i : Nat) : ProFormaParser.PushEvent → Modification
  | .single _ ms o => ProFormaParser.createModification i ms o
  | .ranged ms o => ProFormaParser.createModification i ms o

/-- The keys a replayed event pushes its modification under. -/
def eventKeys (i : Nat) : ProFormaParser.PushEvent → List (Option Int)
  | .single k _ _ => [k]
  | .ranged ms o => rangedKeys (ProFormaParser.createModification i ms o)

/-- Provenance of ranged events: the parser only emits them with the in-range
flag set and a non-negative range start. -/
def RangedOk : ProFormaParser.PushEvent → Prop
  | .single _ _ _ => True
  | .ranged _ o => o.inRange = true ∧ ∃ rs : Int, o.rangeStart = some rs ∧ 0 ≤ rs

/-- All events of a list satisfy the ranged-event provenance. -/
def EventsOk (evs : List ProFormaParser.PushEvent) : Prop :=
  ∀ ev ∈ evs, RangedOk ev

/-- The parsed `PRT(ESFRMS)[+19.0523]ISK` sequence (concrete instance used to
exercise the sequence invariant). -/
def c9Seq : Sequence :=
  (Sequence.fromProforma "PRT(ESFRMS)[+19.0523]ISK".toList).toOption.getD {}

/-- The residue list of the parsed `PEP[Phospho]TIDE` (concrete instance used
to exercise `calculateMass`). -/
def c7Seq : List AminoAcid :=
  ((Sequence.fromProforma "PEP[Phospho]TIDE".toList).toOption.getD {}).seq

/-- Equality of parse-result tuples is decidable (assembled explicitly: the
automatic instance search hits its default size limit on the 4-tuple). -/
instance : DecidableEq (Str × ModMap × List GlobalModification × List SequenceAmbiguity) :=
  fun a b => instDecidableEqProd a b

/-! ## Claim theorems -/

/-- C1 (counterexample): the round-trip claim fails on the scenario
`<Carbamidomethyl@C>PEPCTIDE` — `Sequence.toProforma` after
`Sequence.fromProforma` re-emits the fixed global modification in the
bracketed form `<[Carbamidomethyl]@C>…`, which is not the input string. -/
theorem c1_global_mod_not_roundtrip :
    toProformaStr "<Carbamidomethyl@C>PEPCTIDE" = .ok "<[Carbamidomethyl]@C>PEPCTIDE" ∧
      "<[Carbamidomethyl]@C>PEPCTIDE" ≠ "<Carbamidomethyl@C>PEPCTIDE" := by
  exact ⟨by decide, by decide⟩

/-- C1 (amended): `Sequence.toProforma ∘ Sequence.fromProforma` is the
identity on six of the seven scenario strings; the global-modification
scenario serializes to the bracketed canonical form
`<[Carbamidomethyl]@C>PEPCTIDE`, and that canonical form round-trips to
itself. -/
theorem c1_roundtrip_amended :
    toProformaStr "PEP[Phospho]TIDE" = .ok "PEP[Phospho]TIDE" ∧
      toProformaStr "PEP[+79.966]TIDE" = .ok "PEP[+79.966]TIDE" ∧
      toProformaStr "[Acetyl]-PEPTIDE-[Amidated]" = .ok "[Acetyl]-PEPTIDE-[Amidated]" ∧
      toProformaStr "[Phospho]^2?EMEVNESPEK" = .ok "[Phospho]^2?EMEVNESPEK" ∧
      toProformaStr "PRT(ESFRMS)[+19.0523]ISK" = .ok "PRT(ESFRMS)[+19.0523]ISK" ∧
      toProformaStr "RTAAX[+367.0537]WT" = .ok "RTAAX[+367.0537]WT" ∧
      toProformaStr "<Carbamidomethyl@C>PEPCTIDE" = .ok "<[Carbamidomethyl]@C>PEPCTIDE" ∧
      toProformaStr "<[Carbamidomethyl]@C>PEPCTIDE" = .ok "<[Carbamidomethyl]@C>PEPCTIDE" := by
  refine ⟨?_, ?_, ?_, ?_, ?_, ?_, ?_, ?_⟩ <;> decide

/-- C2: on the chimeric input `PEPTIDE/2+ANOTHER/3` the (spec-modelled)
chimeric front end produces two peptidoforms — stripped sequence `PEPTIDE`
with charge 2 and `ANOTHER` with charge 3 — and in general the top-level `+`
split strips a trailing `/signedInteger` as the charge and a following
`[ionic]` as the ionic species before handing the remainder to
`ProFormaParser` (via `Sequence.fromProforma`). -/
theorem c2_chimeric_parse :
    (fromProformaChimeric "PEPTIDE/2+ANOTHER/3".toList).map
        (fun l => l.map (fun (p : Sequence × Option Int × Option Str) =>
          ((Sequence.toStrippedString p.1).asString, p.2.1, p.2.2))) =
      .ok [("PEPTIDE", some 2, none), ("ANOTHER", some 3, none)] ∧
      splitChimericProforma "PEPTIDE/2+ANOTHER/3".toList =
        ["PEPTIDE/2".toList, "ANOTHER/3".toList] ∧
      stripChargeAndIonic "PEPTIDE/2".toList = ("PEPTIDE".toList, some 2, none) ∧
      stripChargeAndIonic "ANOTHER/3".toList = ("ANOTHER".toList, some 3, none) ∧
      stripChargeAndIonic "PEPTIDE/2[+Na+]".toList =
        ("PEPTIDE".toList, some 2, some "+Na+".toList) ∧
      stripChargeAndIonic "EMEVEESPEK/-2".toList = ("EMEVEESPEK".toList, some (-2), none) := by
  refine ⟨?_, ?_, ?_, ?_, ?_, ?_⟩ <;> decide

/-- C3 (counterexample): on `[Acetyl]-PEPT(?AB)IDE` the unknown-position
phase consumes the leading `[Acetyl]` group while falling through (the claim
expects base sequence `PEPTIDE` with Acetyl stored at key `-1`): the parse
instead returns an empty base sequence and no modifications at all. -/
theorem c3_fallthrough_counterexample :
    ProFormaParser.parse "[Acetyl]-PEPT(?AB)IDE".toList = .ok ([], [], [], []) ∧
      ([] : Str) ≠ "PEPTIDE".toList := by
  exact ⟨by decide, by decide⟩

/-- C3 (amended): when the leading bracket-balanced groups are not followed
by `?`, the collected interiors are discarded **together with the bracket
groups themselves** (`proformaStr.substring(i)` removes them), so the later
phases never see them: `[Acetyl]-PEPT(?AB)IDE` parses to the empty base
sequence with no modifications (the leftover `-PEPT(?AB)IDE` is consumed as
a C-terminal split with no bracket groups), whereas the same input without
the `?` keeps the Acetyl as an N-terminal modification at key `-1`. -/
theorem c3_fallthrough_amended :
    ProFormaParser.parse "[Acetyl]-PEPT(?AB)IDE".toList = .ok ([], [], [], []) ∧
      (ProFormaParser.parse "[Acetyl]-PEPT(AB)IDE".toList).map
          (fun r => (r.1, (mapGet r.2.1 (some (-1))).map
            (List.map (fun m => (Modification.value m, m.modType))))) =
        .ok ("PEPTABIDE".toList, some [("Acetyl".toList, "terminal")]) := by
  exact ⟨by decide, by decide⟩

/-- C5 (counterexample): the claimed equivalence fails in both directions.
`HexPen` is a concatenation of canonical names (`Hex` then `Pen`) but
`validateGlycan` rejects it (the regex matches `HexP` first), while `ZZZHex`
contains the letter `Z` — which occurs in no monosaccharide name — yet is
accepted (the regex search matches `Hex` three characters in, and the loop
advances by the match length from the start). -/
theorem c5_glycan_iff_counterexample :
    ModificationValue.validateGlycan "HexPen".toList = false ∧
      specGlycanConcat ("HexPen".length + 1) "HexPen".toList = true ∧
      ModificationValue.validateGlycan "ZZZHex".toList = true ∧
      specGlycanConcat ("ZZZHex".length + 1) "ZZZHex".toList = false := by
  refine ⟨?_, ?_, ?_, ?_⟩ <;> decide

/-- C5 (amended): `validateGlycan` strips whitespace and then repeatedly
searches the *whole remaining suffix* for the first occurrence of a
monosaccharide name (longest names tried first, optional `(digits)` suffix),
advancing by the length of the match; it accepts iff the advances exactly
consume the string. Straightforward concatenations are accepted, but the
anywhere-in-suffix search makes the acceptance differ from plain
concatenation in both directions (`HexPen` rejected, `ZZZHex` accepted). -/
theorem c5_glycan_amended :
    ModificationValue.validateGlycan "HexNAc".toList = true ∧
      ModificationValue.validateGlycan "HexNAc(1)Hex(1)".toList = true ∧
      ModificationValue.validateGlycan "Hex NAc".toList = true ∧
      ModificationValue.validateGlycan "NeuAcNeuGcdHexFucPenHexSHexPHexNAcS".toList = true ∧
      ModificationValue.validateGlycan "Foo".toList = false ∧
      ModificationValue.validateGlycan "Hex(2".toList = false ∧
      ModificationValue.validateGlycan "HexPen".toList = false ∧
      ModificationValue.validateGlycan "ZZZHex".toList = true := by
  refine ⟨?_, ?_, ?_, ?_, ?_, ?_, ?_, ?_⟩ <;> decide

/-- C8 (counterexample): a pipe component `Obs:xyz` with a non-numeric body
is *not* demoted to kind Synonym — its `PipeValue` keeps kind
`observed_mass` with `observedMass = NaN` (modelled as `none`). -/
theorem c8_obs_not_demoted :
    ((ModificationValue.make "Phospho|Obs:xyz".toList none).pipeValues.map
        (fun pv => (pv.value, pv.type, pv.observedMass, pv.source))) =
      [("Phospho".toList, PipeValue.SYNONYM, none, none),
       ("xyz".toList, PipeValue.OBSERVED_MASS, none, some "Obs".toList)] ∧
      PipeValue.OBSERVED_MASS ≠ PipeValue.SYNONYM := by
  exact ⟨by decide, by decide⟩

/-- C8 (amended): a pipe component `Obs:` with a non-numeric body keeps pipe
kind `observed_mass` with no observed-mass number (`parseFloat` yields `NaN`,
modelled `none`); no demotion to Synonym happens, and round-trip fidelity is
preserved anyway because serialization re-emits the source prefix and the
raw body text (`Phospho|Obs:xyz` serializes back to itself). -/
theorem c8_obs_amended :
    ((ModificationValue.make "Phospho|Obs:xyz".toList none).pipeValues.map
        (fun pv => (pv.type, pv.observedMass))) =
      [(PipeValue.SYNONYM, none), (PipeValue.OBSERVED_MASS, none)] ∧
      (ProFormaParser.createModification 0 "Phospho|Obs:xyz".toList {}).toProforma =
        "Phospho|Obs:xyz".toList ∧
      toProformaStr "ELVIS[Phospho|Obs:xyz]K" = .ok "ELVIS[Phospho|Obs:xyz]K" := by
  refine ⟨?_, ?_, ?_⟩ <;> decide

/-- C10: a `[...]` site modification read in the main residue walk while the
base sequence is still empty is parsed but attached to no position —
`ProFormaParser.parse "[Phospho]PEPTIDE"` (no `?`, no terminal hyphen)
succeeds with base sequence `PEPTIDE`, an empty positional map, no global
modifications and no sequence ambiguities. -/
theorem c10_leading_site_mod_dropped :
    ProFormaParser.parse "[Phospho]PEPTIDE".toList = .ok ("PEPTIDE".toList, [], [], []) := by
  decide

/-- C6 (code evaluated at the failing input): on the three-residue sequence
`AGC` with transition pair `by`, `fragmentNonLabile` does not yield
prefix/suffix pairs — the right ion is constructed from
`sequence.getItem(i)`, the *single residue* at index `i`, and the `Sequence`
constructor then throws a `TypeError` trying to iterate it. -/
theorem c6_fragment_right_single_residue :
    (Sequence.fromProforma "AGC".toList).bind
        (fun sq => fragmentNonLabile sq "by".toList) =
      .error "TypeError: seq is not iterable" ∧
      (Sequence.fromProforma "AGC".toList).map (fun sq => sq.seqLength) = .ok 3 := by
  exact ⟨by decide, by decide⟩

/-- C9 (counterexample): after parsing `PRT(ESFRMS)[+19.0523]ISK` the single
shared range modification (uid 0) is attached to residue 3 *and* residue 4
(indeed to all of 3..8), so a per-residue modification is not listed on
exactly one residue. -/
theorem c9_range_shared_counterexample :
    (Sequence.fromProforma "PRT(ESFRMS)[+19.0523]ISK".toList).map
        (fun sq => ((sq.seq.get? 3).map (fun aa => aa.mods.map (·.uid)),
                    (sq.seq.get? 4).map (fun aa => aa.mods.map (·.uid)))) =
      .ok (some [0], some [0]) := by
  decide

/-- C4 (counterexample): the range mass-shift `+19.0523` (bracket after `)`)
is created with requested kind `variable`, but the `Modification` constructor
overrides the kind of every in-range modification to `ambiguous`. -/
theorem c4_range_massshift_ambiguous :
    (ProFormaParser.createModification 0 "+19.0523".toList
        { inRange := true, rangeStart := some 3, rangeEnd := some 8 }).modType = "ambiguous" ∧
      ("ambiguous" : String) ≠ "variable" := by
  exact ⟨by decide, by decide⟩

/-- C7 (counterexample): `calculateMass` with no mass table on the parsed
`PEP[Phospho]TIDE` succeeds — the named Phospho modification of unknown mass
reports mass 0 through the `Modification.mass` getter and contributes 0
instead of failing; and on `RTAAX[+367.0537]WT` it fails on the residue `X`
even though `X` has (zero) mass in the residue table, because a zero mass is
treated as missing. -/
theorem c7_unknown_mass_mod_contributes_zero :
    (Sequence.fromProforma "PEP[Phospho]TIDE".toList).bind
        (fun sq => calculateMass sq.seq none JsNum.zero JsNum.zero true) =
      .ok (dec 79935996463 8) ∧
      (Sequence.fromProforma "RTAAX[+367.0537]WT".toList).bind
          (fun sq => calculateMass sq.seq none JsNum.zero JsNum.zero true) =
        .error "Block X mass is not available in mass attribute and no additional massDict was supplied" := by
  exact ⟨by decide, by decide⟩

theorem msp_dest {s : Str} (h : ProFormaParser.MASS_SHIFT_PATTERN s = true) :
    ∃ c rest, s = c :: rest ∧ (c = '+' ∨ c = '-') ∧
      rest.takeWhile (fun c => c.isDigit) ≠ [] ∧
      (rest.dropWhile (fun c => c.isDigit) = [] ∨
        ∃ rest₃, rest.dropWhile (fun c => c.isDigit) = '.' :: rest₃ ∧
          rest₃.takeWhile (fun c => c.isDigit) ≠ [] ∧
          rest₃.dropWhile (fun c => c.isDigit) = []) := by
  cases s with
  | nil => simp [ProFormaParser.MASS_SHIFT_PATTERN] at h
  | cons c rest =>
    refine ⟨c, rest, rfl, ?_⟩
    unfold ProFormaParser.MASS_SHIFT_PATTERN at h
    simp only [takeDigits] at h
    rw [Bool.and_eq_true] at h
    obtain ⟨hc, h2⟩ := h
    rw [Bool.and_eq_true] at h2
    obtain ⟨hds, h3⟩ := h2
    refine ⟨?_, ?_, ?_⟩
    · rcases Bool.or_eq_true _ _ |>.mp hc with h | h
      · exact Or.inl (by simpa using h)
      · exact Or.inr (by simpa using h)
    · simpa using hds
    · split at h3
      · exact Or.inl (by assumption)
      · rw [Bool.and_eq_true] at h3
        rename_i rest₃ heq
        exact Or.inr ⟨rest₃, heq, by simpa using h3.1, by simpa using h3.2⟩
      · simp at h3

theorem msp_chars {s : Str} (h : ProFormaParser.MASS_SHIFT_PATTERN s = true) :
    ∀ x ∈ s, x = '+' ∨ x = '-' ∨ x = '.' ∨ x.isDigit = true := by
  obtain ⟨c, rest, rfl, hc, _, htail⟩ := msp_dest h
  intro x hx
  rcases List.mem_cons.mp hx with hxc | hxr
  · subst hxc
    rcases hc with hc | hc
    · exact Or.inl hc
    · exact Or.inr (Or.inl hc)
  · have hsplit : rest.takeWhile (fun c => c.isDigit) ++ rest.dropWhile (fun c => c.isDigit) = rest :=
      List.takeWhile_append_dropWhile _ rest
    rw [← hsplit] at hxr
    rcases List.mem_append.mp hxr with hxt | hxd
    · exact Or.inr (Or.inr (Or.inr (List.mem_takeWhile_imp hxt)))
    · rcases htail with htail | ⟨rest₃, heq, _, hdw3⟩
      · rw [htail] at hxd; simp at hxd
      · rw [heq] at hxd
        rcases List.mem_cons.mp hxd with hxdot | hxr3
        · exact Or.inr (Or.inr (Or.inl hxdot))
        · have hsplit3 : rest₃.takeWhile (fun c => c.isDigit) ++ rest₃.dropWhile (fun c => c.isDigit) = rest₃ :=
            List.takeWhile_append_dropWhile _ rest₃
          rw [← hsplit3, hdw3, List.append_nil] at hxr3
          exact Or.inr (Or.inr (Or.inr (List.mem_takeWhile_imp hxr3)))

theorem msp_strHas {s : Str} (h : ProFormaParser.MASS_SHIFT_PATTERN s = true)
    (x : Char) (hx1 : x ≠ '+') (hx2 : x ≠ '-') (hx3 : x ≠ '.') (hx4 : x.isDigit = false) :
    strHas s x = false := by
  rw [strHas, List.any_eq_false]
  intro c hcmem
  simp only [beq_iff_eq]
  intro he
  subst he
  rcases msp_chars h c hcmem with h1 | h1 | h1 | h1
  · exact hx1 h1
  · exact hx2 h1
  · exact hx3 h1
  · rw [h1] at hx4; exact absurd hx4 (by simp)

theorem splitOnChar_of_not_mem {c : Char} {s : Str} (h : strHas s c = false) :
    splitOnChar c s = [s] := by
  induction s with
  | nil => rfl
  | cons d rest ih =>
    rw [strHas, List.any_cons] at h
    rw [Bool.or_eq_false_iff] at h
    rw [splitOnChar]
    rw [ih h.2]
    simp only [h.1]
    rfl

theorem msp_parseFloat_isSome {s : Str} (h : ProFormaParser.MASS_SHIFT_PATTERN s = true) :
    (parseFloat s).isSome = true := by
  obtain ⟨c, rest, rfl, hc, hds, _⟩ := msp_dest h
  rcases hc with hc | hc <;> subst hc <;>
    simp [parseFloat, takeDigits, hds]

theorem msp_processPrimary {s : Str} (h : ProFormaParser.MASS_SHIFT_PATTERN s = true)
    (hhash : strHas s '#' = false) (mv : ModificationValue) :
    mv.processPrimaryValue s =
      { mv with
        primaryValue := s,
        mass := parseFloat s,
        pipeValues := mv.pipeValues ++
          [{ value := s, type := PipeValue.MASS, originalValue := some s,
             mass := parseFloat s }] } := by
  obtain ⟨c, rest, hs, hc, hds, _⟩ := msp_dest h
  have hcolon : strHas s ':' = false := msp_strHas h ':' (by decide) (by decide) (by decide) (by decide)
  have hhead : s.head? = some c := by rw [hs]; rfl
  have hcne : c ≠ '#' := by rcases hc with hc | hc <;> subst hc <;> decide
  have hne1 : s ≠ "#BRANCH".toList := by
    intro he
    rw [he] at hhead
    simp at hhead
    exact hcne hhead.symm
  have hne2 : ¬ s.head? = some '#' := by
    rw [hhead]
    intro he
    exact hcne (Option.some.inj he)
  have hdig : s.any (·.isDigit) = true := by
    rw [List.any_eq_true]
    obtain ⟨d, hd⟩ := List.exists_mem_of_ne_nil _ hds
    refine ⟨d, ?_, List.mem_takeWhile_imp hd⟩
    rw [hs]
    exact List.mem_cons_of_mem _ (List.takeWhile_subset _ hd)
  have hsgn : s.head? = some '+' ∨ s.head? = some '-' := by
    rw [hhead]
    rcases hc with hc | hc <;> subst hc
    · exact Or.inl rfl
    · exact Or.inr rfl
  rw [ModificationValue.processPrimaryValue]
  rw [if_neg hne1, if_neg hne2, if_neg (by simp [hcolon]), if_neg (by simp [hhash])]
  rw [if_pos ⟨hsgn, hdig⟩]
  rw [PipeValue.make]
  rfl

theorem msp_modValue {s : Str} (h : ProFormaParser.MASS_SHIFT_PATTERN s = true)
    (hhash : strHas s '#' = false) :
    ModificationValue.make s none =
      { primaryValue := s, source := none, mass := parseFloat s,
        pipeValues := [{ value := s, type := PipeValue.MASS, originalValue := some s,
                         mass := parseFloat s }] } := by
  have hpipe : strHas s '|' = false := msp_strHas h '|' (by decide) (by decide) (by decide) (by decide)
  rw [ModificationValue.make, splitOnChar_of_not_mem hpipe]
  show List.foldl ModificationValue.processPipeComponent
      (ModificationValue.processPrimaryValue { mass := none } s) [] = _
  rw [List.foldl_nil, msp_processPrimary h hhash]
  rfl

theorem make_no_crosslink (uid : Nat) (v : Str) (pos : Option Int) (ty : String)
    (lab : Bool) (ln : Nat) (mass : JsNum) (ir : Bool) (rs re : Option Int)
    (ls : Option JsNum) (mv : Option ModificationValue) :
    Modification.make uid v pos ty lab ln mass none false false false none false ir rs re ls mv =
      { uid := uid,
        valueField := v,
        position := pos,
        modType := if ir then "ambiguous" else ty,
        labile := lab || (ty == "labile"),
        labileNumber := ln,
        baseMass := some mass,
        crosslinkIdF := none,
        isCrosslinkRefF := false,
        isBranchRefF := false,
        isBranchF := false,
        ambiguityGroupF := none,
        isAmbiguityRefF := false,
        inRange := ir,
        rangeStart := jsIntOpt0 rs,
        rangeEnd := jsIntOpt0 re,
        localizationScore := jsRatOpt0 ls,
        modValue := mv.getD (ModificationValue.make v (some mass)) } := by
  rw [Modification.make]
  rw [if_neg (fun hc => by simp at hc)]
  rfl

theorem mass_getter_eval (q : JsNum) (m : Modification)
    (h1 : m.modValue.mass = some q) (h2 : m.baseMass = some q) :
    Modification.mass m = q := by
  rw [Modification.mass, h1, h2]
  unfold jsRatOpt0
  by_cases hz : q = JsNum.zero
  · simp [hz]
  · simp [hz]

theorem mass_of_msp {s : Str} {q : JsNum} (m : Modification)
    (hq : parseFloat s = some q)
    (h1 : m.modValue.mass = parseFloat s)
    (h2 : m.baseMass = some ((parseFloat s).getD JsNum.zero)) :
    Modification.mass m = q := by
  apply mass_getter_eval q m
  · rw [h1, hq]
  · rw [h2, hq]
    rfl

/-- C4 (amended). Mass-shift fast path: for every bracket interior matching
the mass-shift pattern with no crosslink hash, the produced Modification keeps
the signed-number text as its primary value, its mass getter returns exactly
the parsed number, and its kind is "ambiguous" for a range modification (the
constructor overrides the requested "variable"), "gap" when the gap flag was
armed outside a range, and "static" otherwise. -/
theorem c4_massshift_kinds_amended (uid : Nat) (s : Str)
    (o : ProFormaParser.CreateModOptions)
    (h : ProFormaParser.MASS_SHIFT_PATTERN s = true)
    (hhash : strHas s '#' = false) :
    (ProFormaParser.createModification uid s o).modValue.primaryValue = s ∧
    parseFloat s = some (Modification.mass (ProFormaParser.createModification uid s o)) ∧
    (ProFormaParser.createModification uid s o).modType =
      (if o.inRange then "ambiguous" else if o.isGap then "gap" else "static") := by
  obtain ⟨q, hq⟩ := Option.isSome_iff_exists.mp (msp_parseFloat_isSome h)
  have hmv := msp_modValue h hhash
  have hcond : (ProFormaParser.MASS_SHIFT_PATTERN s && !strHas s '#') = true := by
    rw [h, hhash]
    rfl
  unfold ProFormaParser.createModification
  rw [hcond]
  rw [if_pos rfl]
  by_cases hg : o.isGap = true
  · rw [if_pos hg]
    rw [make_no_crosslink]
    refine ⟨?_, ?_, ?_⟩
    · show (ModificationValue.make s none).primaryValue = s
      rw [hmv]
    · rw [hq]
      refine congrArg some (mass_of_msp _ hq ?_ ?_).symm
      · show (ModificationValue.make s none).mass = parseFloat s
        rw [hmv]
      · rw [hq]
    · show (if o.inRange = true then "ambiguous" else "gap") =
        (if o.inRange = true then "ambiguous" else if o.isGap = true then "gap" else "static")
      rw [hg]
      by_cases hr : o.inRange = true <;> simp [hr]
  · rw [if_neg hg]
    rw [Bool.not_eq_true] at hg
    by_cases hr : o.inRange = true
    · rw [if_pos hr]
      rw [make_no_crosslink]
      refine ⟨?_, ?_, ?_⟩
      · show (ModificationValue.make s none).primaryValue = s
        rw [hmv]
      · rw [hq]
        refine congrArg some (mass_of_msp _ hq ?_ ?_).symm
        · show (ModificationValue.make s none).mass = parseFloat s
          rw [hmv]
        · rw [hq]
      · show "ambiguous" =
          (if o.inRange = true then "ambiguous" else if o.isGap = true then "gap" else "static")
        rw [hr]
        rfl
    · rw [if_neg hr]
      rw [Bool.not_eq_true] at hr
      rw [make_no_crosslink]
      refine ⟨?_, ?_, ?_⟩
      · show (ModificationValue.make s none).primaryValue = s
        rw [hmv]
      · rw [hq]
        refine congrArg some (mass_of_msp _ hq ?_ ?_).symm
        · show (ModificationValue.make s none).mass = parseFloat s
          rw [hmv]
        · rw [hq]
      · show (if o.inRange = true then "ambiguous" else "static") =
          (if o.inRange = true then "ambiguous" else if o.isGap = true then "gap" else "static")
        rw [hr, hg]
        rfl

/-- Witness for C4 at the range mass shift of scenario
`PRT(ESFRMS)[+19.0523]ISK`: the hypotheses hold and the produced range
modification is "ambiguous", not "variable". -/
theorem c4_massshift_kinds_amended_witness :
    ProFormaParser.MASS_SHIFT_PATTERN "+19.0523".toList = true ∧
    strHas "+19.0523".toList '#' = false ∧
    (ProFormaParser.createModification 7 "+19.0523".toList
      { inRange := true, rangeStart := some 3, rangeEnd := some 8 }).modType = "ambiguous" :=
  ⟨by decide, by decide, by
    have hmain := c4_massshift_kinds_amended 7 "+19.0523".toList
      { inRange := true, rangeStart := some 3, rangeEnd := some 8 } (by decide) (by decide)
    simpa using hmain.2.2⟩

theorem c7_mods_fold (massDict : Option (List (Str × JsNum)))
    (mods : List Modification) (acc : JsNum) :
    (mods.foldlM
      (fun (acc : JsNum) (m : Modification) => do
        let mm := Modification.mass m
        if (!jsNumFalsy mm) && jsNumFalsy mm then
          match massDict with
          | some dict =>
            match dict.find? (fun p => p.1 == Modification.value m) with
            | some p => pure (acc.add p.2)
            | none => throw ("Block " ++ (Modification.value m).asString ++ " not found in massDict")
          | none =>
            throw ("Block " ++ (Modification.value m).asString ++
              " mass is not available in mass attribute and no additional massDict was supplied")
        else pure (acc.add mm))
      acc : Except String JsNum) =
    .ok (mods.foldl (fun (a : JsNum) (m : Modification) => a.add (Modification.mass m)) acc) := by
  induction mods generalizing acc with
  | nil => rfl
  | cons m rest ih =>
    rw [List.foldlM_cons, List.foldl_cons]
    have hcond : ((!jsNumFalsy (Modification.mass m)) && jsNumFalsy (Modification.mass m)) = false := by
      cases jsNumFalsy (Modification.mass m) <;> rfl
    simp only [hcond, Bool.false_eq_true, if_false, pure_bind]
    exact ih _

theorem c7_seq_fold (massDict : Option (List (Str × JsNum)))
    (seq : List AminoAcid) (acc : JsNum)
    (h : ∀ aa ∈ seq, jsRatOpt0 aa.mass ≠ none) :
    (seq.foldlM
      (fun (acc : JsNum) (i : AminoAcid) => do
        let acc ←
          if jsRatOpt0 i.mass = none then
            match massDict with
            | some dict =>
              match dict.find? (fun p => p.1 == i.value) with
              | some p => pure (acc.add p.2)
              | none => throw ("Block " ++ i.value.asString ++ " not found in massDict")
            | none =>
              throw ("Block " ++ i.value.asString ++
                " mass is not available in mass attribute and no additional massDict was supplied")
          else pure (acc.add (i.mass.getD JsNum.zero))
        i.mods.foldlM
          (fun (acc : JsNum) (m : Modification) => do
            let mm := Modification.mass m
            if (!jsNumFalsy mm) && jsNumFalsy mm then
              match massDict with
              | some dict =>
                match dict.find? (fun p => p.1 == Modification.value m) with
                | some p => pure (acc.add p.2)
                | none => throw ("Block " ++ (Modification.value m).asString ++ " not found in massDict")
              | none =>
                throw ("Block " ++ (Modification.value m).asString ++
                  " mass is not available in mass attribute and no additional massDict was supplied")
            else pure (acc.add mm))
          acc)
      acc : Except String JsNum) =
    .ok (seq.foldl
      (fun (acc : JsNum) (aa : AminoAcid) =>
        aa.mods.foldl (fun (a : JsNum) (m : Modification) => a.add (Modification.mass m))
          (acc.add (aa.mass.getD JsNum.zero)))
      acc) := by
  induction seq generalizing acc with
  | nil => rfl
  | cons i rest ih =>
    rw [List.foldlM_cons, List.foldl_cons]
    have hi : jsRatOpt0 i.mass ≠ none := h i (List.mem_cons_self i rest)
    simp only [if_neg hi, pure_bind]
    rw [c7_mods_fold]
    exact ih _ (fun aa ha => h aa (List.mem_cons_of_mem i ha))

/-- C7 (amended). When every residue of the sequence carries a truthy mass,
`calculateMass` never fails — regardless of the attached modifications, whose
missing-mass branch is unreachable because the `Modification.mass` getter
collapses an unknown mass to 0 — and returns the fold of residue masses plus
modification getter masses over the water term, plus the terminal offsets. -/
theorem c7_calculate_mass_amended (seq : List AminoAcid)
    (massDict : Option (List (Str × JsNum))) (NTerminus OTerminus : JsNum)
    (withWater : Bool) (h : ∀ aa ∈ seq, jsRatOpt0 aa.mass ≠ none) :
    calculateMass seq massDict NTerminus OTerminus withWater =
      .ok ((((seq.foldl
          (fun (acc : JsNum) (aa : AminoAcid) =>
            aa.mods.foldl (fun (a : JsNum) (m : Modification) => a.add (Modification.mass m))
              (acc.add (aa.mass.getD JsNum.zero)))
          (if withWater then (H.add H).add O else JsNum.zero)).add NTerminus).add OTerminus)) := by
  have hfold := c7_seq_fold massDict seq (if withWater then (H.add H).add O else JsNum.zero) h
  simp only [calculateMass]
  rw [hfold]
  rfl

/-- Witness for C7 on the parsed `PEP[Phospho]TIDE` residues: every residue
has a truthy mass, and the sum is 799.35996463 — the unknown-mass Phospho
modification contributes 0 instead of raising. -/
theorem c7_calculate_mass_amended_witness :
    calculateMass c7Seq none JsNum.zero JsNum.zero true = .ok (dec 79935996463 8) := by
  rw [c7_calculate_mass_amended c7Seq none JsNum.zero JsNum.zero true (by decide)]
  decide

theorem mem_occsOf_intro {v : Nat} {map : ModMap} {p : Option Int × List Modification}
    (hp : p ∈ map) {m : Modification} (hm : m ∈ p.2) (hv : m.uid = v) :
    p.1 ∈ occsOf map v := by
  induction map with
  | nil => simp at hp
  | cons q rest ih =>
    rw [occsOf]
    rcases List.mem_cons.mp hp with h | h
    · subst h
      exact List.mem_append_left _
        (List.mem_map.mpr ⟨m, List.mem_filter.mpr ⟨hm, by simp [hv]⟩, rfl⟩)
    · exact List.mem_append_right _ (ih h)

theorem mem_valsOf_intro {map : ModMap} {p : Option Int × List Modification}
    (hp : p ∈ map) {m : Modification} (hm : m ∈ p.2) : m ∈ valsOf map := by
  induction map with
  | nil => simp at hp
  | cons q rest ih =>
    rw [valsOf]
    rcases List.mem_cons.mp hp with h | h
    · subst h
      exact List.mem_append_left _ hm
    · exact List.mem_append_right _ (ih h)

theorem mem_occsOf_pushMod {v : Nat} {k' : Option Int} {m : Modification} :
    ∀ {map : ModMap} {k : Option Int},
    k' ∈ occsOf (pushMod map k m) v → k' ∈ occsOf map v ∨ (m.uid = v ∧ k' = k) := by
  intro map
  induction map with
  | nil =>
    intro k h
    rw [pushMod, occsOf, occsOf] at h
    rcases List.mem_append.mp h with h | h
    · rcases List.mem_map.mp h with ⟨x, hx, rfl⟩
      have hb := (List.mem_filter.mp hx).2
      rcases List.mem_singleton.mp (List.mem_filter.mp hx).1 with rfl
      exact Or.inr ⟨eq_of_beq hb, rfl⟩
    · simp at h
  | cons q rest ih =>
    intro k h
    obtain ⟨qk, ql⟩ := q
    rw [pushMod] at h
    by_cases hk : qk = k
    · rw [if_pos hk] at h
      rw [occsOf] at h
      rcases List.mem_append.mp h with h | h
      · rcases List.mem_map.mp h with ⟨x, hx, rfl⟩
        rcases List.mem_filter.mp hx with ⟨hx1, hx2⟩
        rcases List.mem_append.mp hx1 with hx1 | hx1
        · exact Or.inl (by
            rw [occsOf]
            exact List.mem_append_left _
              (List.mem_map.mpr ⟨x, List.mem_filter.mpr ⟨hx1, hx2⟩, rfl⟩))
        · rcases List.mem_singleton.mp hx1 with rfl
          exact Or.inr ⟨eq_of_beq hx2, hk⟩
      · exact Or.inl (by rw [occsOf]; exact List.mem_append_right _ h)
    · rw [if_neg hk] at h
      rw [occsOf] at h
      rcases List.mem_append.mp h with h | h
      · exact Or.inl (by rw [occsOf]; exact List.mem_append_left _ h)
      · rcases ih h with h | h
        · exact Or.inl (by rw [occsOf]; exact List.mem_append_right _ h)
        · exact Or.inr h

theorem mem_valsOf_pushMod {x m : Modification} :
    ∀ {map : ModMap} {k : Option Int},
    x ∈ valsOf (pushMod map k m) → x ∈ valsOf map ∨ x = m := by
  intro map
  induction map with
  | nil =>
    intro k h
    rw [pushMod, valsOf, valsOf] at h
    rcases List.mem_append.mp h with h | h
    · exact Or.inr (List.mem_singleton.mp h)
    · simp at h
  | cons q rest ih =>
    intro k h
    obtain ⟨qk, ql⟩ := q
    rw [pushMod] at h
    by_cases hk : qk = k
    · rw [if_pos hk] at h
      rw [valsOf] at h
      rcases List.mem_append.mp h with h | h
      · rcases List.mem_append.mp h with h | h
        · exact Or.inl (by rw [valsOf]; exact List.mem_append_left _ h)
        · exact Or.inr (List.mem_singleton.mp h)
      · exact Or.inl (by rw [valsOf]; exact List.mem_append_right _ h)
    · rw [if_neg hk] at h
      rw [valsOf] at h
      rcases List.mem_append.mp h with h | h
      · exact Or.inl (by rw [valsOf]; exact List.mem_append_left _ h)
      · rcases ih h with h | h
        · exact Or.inl (by rw [valsOf]; exact List.mem_append_right _ h)
        · exact Or.inr h

theorem mem_occsOf_pushRangeInts {v : Nat} {k' : Option Int} {m : Modification} :
    ∀ (fuel : Nat) {map : ModMap} {pos stop : Int},
    k' ∈ occsOf (pushRangeInts fuel map pos stop m) v →
      k' ∈ occsOf map v ∨ (m.uid = v ∧ k' ∈ rangeKeyList fuel pos stop) := by
  intro fuel
  induction fuel with
  | zero => intro map pos stop h; exact Or.inl h
  | succ fuel ih =>
    intro map pos stop h
    rw [pushRangeInts] at h
    by_cases hle : pos ≤ stop
    · rw [if_pos hle] at h
      rcases ih h with h | h
      · rcases mem_occsOf_pushMod h with h | h
        · exact Or.inl h
        · refine Or.inr ⟨h.1, ?_⟩
          rw [rangeKeyList, if_pos hle, h.2]
          exact List.mem_cons_self _ _
      · refine Or.inr ⟨h.1, ?_⟩
        rw [rangeKeyList, if_pos hle]
        exact List.mem_cons_of_mem _ h.2
    · rw [if_neg hle] at h
      exact Or.inl h

theorem mem_valsOf_pushRangeInts {x m : Modification} :
    ∀ (fuel : Nat) {map : ModMap} {pos stop : Int},
    x ∈ valsOf (pushRangeInts fuel map pos stop m) → x ∈ valsOf map ∨ x = m := by
  intro fuel
  induction fuel with
  | zero => intro map pos stop h; exact Or.inl h
  | succ fuel ih =>
    intro map pos stop h
    rw [pushRangeInts] at h
    by_cases hle : pos ≤ stop
    · rw [if_pos hle] at h
      rcases ih h with h | h
      · exact mem_valsOf_pushMod h
      · exact Or.inr h
    · rw [if_neg hle] at h
      exact Or.inl h

theorem mem_occsOf_pushRange {v : Nat} {k' : Option Int} {m : Modification} {map : ModMap}
    (h : k' ∈ occsOf (pushRange map m) v) :
    k' ∈ occsOf map v ∨ (m.uid = v ∧ k' ∈ rangedKeys m) := by
  rw [pushRange] at h
  by_cases hle : jsKeyNum m.rangeStart ≤ jsKeyNum m.rangeEnd
  · rw [if_pos hle] at h
    rcases mem_occsOf_pushRangeInts _ h with h | h
    · rcases mem_occsOf_pushMod h with h | h
      · exact Or.inl h
      · refine Or.inr ⟨h.1, ?_⟩
        rw [rangedKeys, if_pos hle, h.2]
        exact List.mem_cons_self _ _
    · refine Or.inr ⟨h.1, ?_⟩
      rw [rangedKeys, if_pos hle]
      exact List.mem_cons_of_mem _ h.2
  · rw [if_neg hle] at h
    exact Or.inl h

theorem mem_valsOf_pushRange {x m : Modification} {map : ModMap}
    (h : x ∈ valsOf (pushRange map m)) : x ∈ valsOf map ∨ x = m := by
  rw [pushRange] at h
  by_cases hle : jsKeyNum m.rangeStart ≤ jsKeyNum m.rangeEnd
  · rw [if_pos hle] at h
    rcases mem_valsOf_pushRangeInts _ h with h | h
    · exact mem_valsOf_pushMod h
    · exact Or.inr h
  · rw [if_neg hle] at h
    exact Or.inl h

theorem make_uid (u : Nat) (v : Str) (pos : Option Int) (ty : String) (lab : Bool) (ln : Nat)
    (mass : JsNum) (cid : Option Str) (icr ibr ib : Bool) (ag : Option Str) (iar ir : Bool)
    (rs re : Option Int) (ls : Option JsNum) (mv : Option ModificationValue) :
    (Modification.make u v pos ty lab ln mass cid icr ibr ib ag iar ir rs re ls mv).uid = u := rfl

theorem make_inRange (u : Nat) (v : Str) (pos : Option Int) (ty : String) (lab : Bool) (ln : Nat)
    (mass : JsNum) (cid : Option Str) (icr ibr ib : Bool) (ag : Option Str) (iar ir : Bool)
    (rs re : Option Int) (ls : Option JsNum) (mv : Option ModificationValue) :
    (Modification.make u v pos ty lab ln mass cid icr ibr ib ag iar ir rs re ls mv).inRange =
      ir := rfl

theorem make_rangeStart (u : Nat) (v : Str) (pos : Option Int) (ty : String) (lab : Bool) (ln : Nat)
    (mass : JsNum) (cid : Option Str) (icr ibr ib : Bool) (ag : Option Str) (iar ir : Bool)
    (rs re : Option Int) (ls : Option JsNum) (mv : Option ModificationValue) :
    (Modification.make u v pos ty lab ln mass cid icr ibr ib ag iar ir rs re ls mv).rangeStart =
      jsIntOpt0 rs := rfl

theorem createModification_uid (u : Nat) (ms : Str) (o : ProFormaParser.CreateModOptions) :
    (ProFormaParser.createModification u ms o).uid = u := by
  simp only [ProFormaParser.createModification]
  repeat' split
  all_goals rfl

theorem createModification_inRange (u : Nat) (ms : Str) (o : ProFormaParser.CreateModOptions) :
    (ProFormaParser.createModification u ms o).inRange = o.inRange := by
  simp only [ProFormaParser.createModification]
  repeat' split
  all_goals simp_all [make_inRange]

theorem createModification_rangeStart (u : Nat) (ms : Str) (o : ProFormaParser.CreateModOptions) :
    (ProFormaParser.createModification u ms o).rangeStart = jsIntOpt0 o.rangeStart := by
  simp only [ProFormaParser.createModification]
  repeat' split
  all_goals rfl

theorem mem_occsOf_applyEvent {v : Nat} {k' : Option Int} {map : ModMap} {i : Nat}
    {ev : ProFormaParser.PushEvent}
    (h : k' ∈ occsOf (ProFormaParser.applyEvent map i ev) v) :
    k' ∈ occsOf map v ∨ (i = v ∧ k' ∈ eventKeys i ev) := by
  cases ev with
  | single k ms o =>
    rw [ProFormaParser.applyEvent] at h
    rcases mem_occsOf_pushMod h with h | h
    · exact Or.inl h
    · refine Or.inr ⟨?_, ?_⟩
      · rw [← h.1, createModification_uid]
      · rw [eventKeys, h.2]
        exact List.mem_singleton.mpr rfl
  | ranged ms o =>
    rw [ProFormaParser.applyEvent] at h
    rcases mem_occsOf_pushRange h with h | h
    · exact Or.inl h
    · refine Or.inr ⟨?_, ?_⟩
      · rw [← h.1, createModification_uid]
      · rw [eventKeys]
        exact h.2

theorem mem_valsOf_applyEvent {x : Modification} {map : ModMap} {i : Nat}
    {ev : ProFormaParser.PushEvent}
    (h : x ∈ valsOf (ProFormaParser.applyEvent map i ev)) :
    x ∈ valsOf map ∨ x = eventMod i ev := by
  cases ev with
  | single k ms o =>
    rw [ProFormaParser.applyEvent] at h
    rcases mem_valsOf_pushMod h with h | h
    · exact Or.inl h
    · exact Or.inr h
  | ranged ms o =>
    rw [ProFormaParser.applyEvent] at h
    rcases mem_valsOf_pushRange h with h | h
    · exact Or.inl h
    · exact Or.inr h

theorem mem_occsOf_buildMapAux {v : Nat} {k' : Option Int} :
    ∀ (evs : List ProFormaParser.PushEvent) {map : ModMap} {i : Nat},
    k' ∈ occsOf (ProFormaParser.buildMapAux map i evs) v →
      k' ∈ occsOf map v ∨
        ∃ j, ∃ hj : j < evs.length, i + j = v ∧ k' ∈ eventKeys v (evs.get ⟨j, hj⟩) := by
  intro evs
  induction evs with
  | nil => intro map i h; exact Or.inl h
  | cons ev rest ih =>
    intro map i h
    rw [ProFormaParser.buildMapAux] at h
    rcases ih h with h | h
    · rcases mem_occsOf_applyEvent h with h | h
      · exact Or.inl h
      · refine Or.inr ⟨0, by simp, by rw [Nat.add_zero]; exact h.1, ?_⟩
        rw [show (ev :: rest).get ⟨0, by simp⟩ = ev from rfl]
        exact h.1 ▸ h.2
    · obtain ⟨j, hj, hji, hk⟩ := h
      refine Or.inr ⟨j + 1, by simpa using Nat.succ_lt_succ hj, by omega, ?_⟩
      rw [show (ev :: rest).get ⟨j + 1, by simpa using Nat.succ_lt_succ hj⟩ =
        rest.get ⟨j, hj⟩ from rfl]
      exact hk

theorem mem_valsOf_buildMapAux {x : Modification} :
    ∀ (evs : List ProFormaParser.PushEvent) {map : ModMap} {i : Nat},
    x ∈ valsOf (ProFormaParser.buildMapAux map i evs) →
      x ∈ valsOf map ∨
        ∃ j, ∃ hj : j < evs.length, x = eventMod (i + j) (evs.get ⟨j, hj⟩) := by
  intro evs
  induction evs with
  | nil => intro map i h; exact Or.inl h
  | cons ev rest ih =>
    intro map i h
    rw [ProFormaParser.buildMapAux] at h
    rcases ih h with h | h
    · rcases mem_valsOf_applyEvent h with h | h
      · exact Or.inl h
      · exact Or.inr ⟨0, by simp, by rw [Nat.add_zero]; exact h⟩
    · obtain ⟨j, hj, hx⟩ := h
      refine Or.inr ⟨j + 1, by simpa using Nat.succ_lt_succ hj, ?_⟩
      rw [show (ev :: rest).get ⟨j + 1, by simpa using Nat.succ_lt_succ hj⟩ =
        rest.get ⟨j, hj⟩ from rfl]
      rw [show i + (j + 1) = i + 1 + j by omega]
      exact hx

theorem mem_rangeKeyList {k : Option Int} :
    ∀ (fuel : Nat) {pos stop : Int}, k ∈ rangeKeyList fuel pos stop →
      ∃ p : Int, k = some p ∧ pos ≤ p := by
  intro fuel
  induction fuel with
  | zero => intro pos stop h; simp [rangeKeyList] at h
  | succ fuel ih =>
    intro pos stop h
    rw [rangeKeyList] at h
    by_cases hle : pos ≤ stop
    · rw [if_pos hle] at h
      rcases List.mem_cons.mp h with h | h
      · exact ⟨pos, h, le_refl pos⟩
      · obtain ⟨p, hp, hpos⟩ := ih h
        exact ⟨p, hp, by omega⟩
    · rw [if_neg hle] at h
      simp at h

theorem mem_rangedKeys_nonneg {k : Option Int} {m : Modification} {rs : Int}
    (hrs : 0 ≤ rs) (hstart : m.rangeStart = jsIntOpt0 (some rs))
    (h : k ∈ rangedKeys m) : k = none ∨ ∃ p : Int, k = some p ∧ 0 ≤ p := by
  have hstart0 : 0 ≤ jsKeyNum m.rangeStart := by
    rw [hstart, jsIntOpt0]
    by_cases hz : rs = 0
    · rw [if_pos hz]
      exact le_refl 0
    · rw [if_neg hz, jsKeyNum]
      exact hrs
  rw [rangedKeys] at h
  by_cases hle : jsKeyNum m.rangeStart ≤ jsKeyNum m.rangeEnd
  · rw [if_pos hle] at h
    rcases List.mem_cons.mp h with h | h
    · subst h
      rw [hstart, jsIntOpt0]
      by_cases hz : rs = 0
      · rw [if_pos hz]
        exact Or.inl rfl
      · rw [if_neg hz]
        exact Or.inr ⟨rs, rfl, hrs⟩
    · obtain ⟨p, hp, hpos⟩ := mem_rangeKeyList _ h
      exact Or.inr ⟨p, hp, by omega⟩
  · rw [if_neg hle] at h
    simp at h

theorem unknownPosLoop_ranged :
    ∀ (fuel : Nat) (s : Str) (i : Nat) (mods : List Str) (i' : Nat)
      (evs : List ProFormaParser.PushEvent),
    ProFormaParser.unknownPosLoop fuel s i mods = .ok (i', evs) →
    ∀ ev ∈ evs, RangedOk ev := by
  intro fuel
  induction fuel with
  | zero =>
    intro s i mods i' evs h
    exact absurd h (by rw [ProFormaParser.unknownPosLoop]; simp)
  | succ fuel ih =>
    intro s i mods i' evs h ev hev
    rw [ProFormaParser.unknownPosLoop] at h
    by_cases h1 : i < s.length
    · rw [if_pos h1] at h
      by_cases h2 : s.get? i ≠ some '['
      · rw [if_pos h2] at h
        by_cases h3 : mods ≠ [] ∧ s.get? i = some '?'
        · rw [if_pos h3] at h
          cases h
          rcases List.mem_map.mp hev with ⟨ms, _, rfl⟩
          exact trivial
        · rw [if_neg h3] at h
          cases h
          simp at hev
      · rw [if_neg h2] at h
        split at h
        split at h
        · exact absurd h (by simp)
        · split at h
          exact ih _ _ _ _ _ h ev hev
    · rw [if_neg h1] at h
      cases h
      simp at hev

theorem labileLoop_ranged :
    ∀ (fuel : Nat) (s : Str) (i : Nat) (acc : List ProFormaParser.PushEvent) (i' : Nat)
      (evs : List ProFormaParser.PushEvent),
    (∀ ev ∈ acc, RangedOk ev) →
    ProFormaParser.labileLoop fuel s i acc = .ok (i', evs) →
    ∀ ev ∈ evs, RangedOk ev := by
  intro fuel
  induction fuel with
  | zero =>
    intro s i acc i' evs _ h
    exact absurd h (by rw [ProFormaParser.labileLoop]; simp)
  | succ fuel ih =>
    intro s i acc i' evs hacc h ev hev
    rw [ProFormaParser.labileLoop] at h
    by_cases h1 : i < s.length ∧ s.get? i = some '{'
    · rw [if_pos h1] at h
      split at h
      · simp at h
      · simp only [] at h
        split at h
        · refine ih _ _ _ _ _ ?_ h ev hev
          intro e he
          rcases List.mem_append.mp he with he | he
          · exact hacc e he
          · rcases List.mem_singleton.mp he with rfl
            exact trivial
        · simp at h
    · rw [if_neg h1] at h
      cases h
      exact hacc ev hev

theorem rangeModsLoop_ranged :
    ∀ (fuel : Nat) (s : Str) (j : Nat) (rs re : Int) (acc : List ProFormaParser.PushEvent),
    0 ≤ rs → (∀ ev ∈ acc, RangedOk ev) →
    ∀ ev ∈ (ProFormaParser.rangeModsLoop fuel s j rs re acc).2, RangedOk ev := by
  intro fuel
  induction fuel with
  | zero =>
    intro s j rs re acc _ hacc ev hev
    rw [ProFormaParser.rangeModsLoop] at hev
    exact hacc ev hev
  | succ fuel ih =>
    intro s j rs re acc hrs hacc ev hev
    rw [ProFormaParser.rangeModsLoop] at hev
    by_cases h1 : j < s.length ∧ s.get? j = some '['
    · rw [if_pos h1] at hev
      split at hev
      split at hev
      · refine ih _ _ _ _ _ hrs ?_ ev hev
        intro e he
        rcases List.mem_append.mp he with he | he
        · exact hacc e he
        · rcases List.mem_singleton.mp he with rfl
          exact ⟨rfl, rs, rfl, hrs⟩
      · exact ih _ _ _ _ _ hrs hacc ev hev
    · rw [if_neg h1] at hev
      exact hacc ev hev

theorem mainWalk_ranged :
    ∀ (fuel : Nat) (s : Str) (i : Nat) (base : Str) (g : Bool) (stack : List Int)
      (events : List ProFormaParser.PushEvent) (ambs : List SequenceAmbiguity)
      (base' : Str) (evs : List ProFormaParser.PushEvent) (ambs' : List SequenceAmbiguity),
    (∀ r ∈ stack, (0 : Int) ≤ r) → (∀ ev ∈ events, RangedOk ev) →
    ProFormaParser.mainWalk fuel s i base g stack events ambs = .ok (base', evs, ambs') →
    ∀ ev ∈ evs, RangedOk ev := by
  intro fuel
  induction fuel with
  | zero =>
    intro s i base g stack events ambs base' evs ambs' _ _ h
    exact absurd h (by rw [ProFormaParser.mainWalk]; simp)
  | succ fuel ih =>
    intro s i base g stack events ambs base' evs ambs' hstack hevents h ev hev
    rw [ProFormaParser.mainWalk] at h
    by_cases h1 : i < s.length
    case neg =>
      rw [if_neg h1] at h
      cases h
      exact hevents ev hev
    rw [if_pos h1] at h
    by_cases h2 : s.get? i = some '(' ∧ s.get? (i + 1) = some '?'
    · rw [if_pos h2] at h
      split at h
      · simp at h
      · exact ih _ _ _ _ _ _ _ _ _ _ hstack hevents h ev hev
    rw [if_neg h2] at h
    by_cases h3 : s.get? i = some '('
    · rw [if_pos h3] at h
      refine ih _ _ _ _ _ _ _ _ _ _ ?_ hevents h ev hev
      intro r hr
      rcases List.mem_append.mp hr with hr | hr
      · exact hstack r hr
      · rcases List.mem_singleton.mp hr with rfl
        exact Int.natCast_nonneg _
    rw [if_neg h3] at h
    by_cases h4 : s.get? i = some ')'
    · rw [if_pos h4] at h
      split at h
      · simp at h
      · rename_i rangeStart hgl
        have hrs : (0 : Int) ≤ rangeStart := hstack _ (List.mem_of_getLast?_eq_some hgl)
        simp only [] at h
        refine ih _ _ _ _ _ _ _ _ _ _ ?_ ?_ h ev hev
        · intro r hr
          exact hstack r ((List.dropLast_sublist stack).subset hr)
        · intro e he
          exact rangeModsLoop_ranged (s.length + 1) s (i + 1) rangeStart
            ((base.length : Int) - 1) events hrs hevents e he
    rw [if_neg h4] at h
    by_cases h5 : s.get? i = some '['
    · rw [if_pos h5] at h
      split at h
      simp only [] at h
      split at h
      · simp at h
      · refine ih _ _ _ _ _ _ _ _ _ _ hstack ?_ h ev hev
        split
        · intro e he
          rcases List.mem_append.mp he with he | he
          · exact hevents e he
          · rcases List.mem_singleton.mp he with rfl
            exact trivial
        · exact hevents
    rw [if_neg h5] at h
    by_cases h8 : s.get? i = some '{'
    · rw [if_pos h8] at h
      split at h
      · simp at h
      · refine ih _ _ _ _ _ _ _ _ _ _ hstack ?_ h ev hev
        split
        · intro e he
          rcases List.mem_append.mp he with he | he
          · exact hevents e he
          · rcases List.mem_singleton.mp he with rfl
            exact trivial
        · exact hevents
    rw [if_neg h8] at h
    split at h
    · exact ih _ _ _ _ _ _ _ _ _ _ hstack hevents h ev hev
    · cases h
      exact hevents ev hev

theorem ok_bind {α β : Type} (a : α) (f : α → Except String β) :
    (Except.ok a >>= f) = f a := rfl

theorem error_bind {α β : Type} (e : String) (f : α → Except String β) :
    ((Except.error e : Except String α) >>= f) = .error e := rfl

theorem eventsOk_append {l₁ l₂ : List ProFormaParser.PushEvent}
    (h1 : EventsOk l₁) (h2 : EventsOk l₂) : EventsOk (l₁ ++ l₂) := by
  intro ev hev
  rcases List.mem_append.mp hev with hev | hev
  · exact h1 ev hev
  · exact h2 ev hev

theorem eventsOk_nil : EventsOk [] := by
  intro ev hev
  simp at hev

theorem eventsOk_map_single {l : List Str} {kf : Str → Option Int}
    {of : Str → ProFormaParser.CreateModOptions} :
    EventsOk (l.map (fun ms => ProFormaParser.PushEvent.single (kf ms) ms (of ms))) := by
  intro ev hev
  rcases List.mem_map.mp hev with ⟨ms, _, rfl⟩
  exact trivial

theorem parse_tail6 {s₅ : Str} {e₁ e₂ e₃ e₄ : List ProFormaParser.PushEvent}
    {gms gm : List GlobalModification} {base : Str} {pm : ModMap}
    {ambs : List SequenceAmbiguity}
    (h1 : EventsOk e₁) (h2 : EventsOk e₂) (h3 : EventsOk e₃) (h4 : EventsOk e₄)
    (h : (do
        let (b, e₅, am) ← ProFormaParser.mainWalk (s₅.length + 1) s₅ 0 [] false [] [] []
        pure (b, ProFormaParser.buildMap (e₁ ++ e₂ ++ e₃ ++ e₄ ++ e₅), gms, am) :
        Except String (Str × ModMap × List GlobalModification × List SequenceAmbiguity)) =
      .ok (base, pm, gm, ambs)) :
    ∃ evs, pm = ProFormaParser.buildMap evs ∧ EventsOk evs := by
  cases hmw : ProFormaParser.mainWalk (s₅.length + 1) s₅ 0 [] false [] [] [] with
  | error e =>
    rw [hmw, error_bind] at h
    exact absurd h (by simp)
  | ok t =>
    obtain ⟨b, e₅, am⟩ := t
    rw [hmw, ok_bind] at h
    simp only [] at h
    have h5 : EventsOk e₅ := by
      intro ev hev
      exact mainWalk_ranged (s₅.length + 1) s₅ 0 [] false [] [] [] b e₅ am
        (by intro r hr; simp at hr) (by intro e he; simp at he) hmw ev hev
    have hA : (b, ProFormaParser.buildMap (e₁ ++ e₂ ++ e₃ ++ e₄ ++ e₅), gms, am) =
        (base, pm, gm, ambs) := Except.ok.inj h
    injection hA with hb hA
    injection hA with hpm hA
    exact ⟨e₁ ++ e₂ ++ e₃ ++ e₄ ++ e₅, hpm.symm,
      eventsOk_append (eventsOk_append (eventsOk_append (eventsOk_append h1 h2) h3) h4) h5⟩

theorem parse_tail5 {s₄ : Str} {e₁ e₂ e₃ : List ProFormaParser.PushEvent}
    {gms gm : List GlobalModification} {base : Str} {pm : ModMap}
    {ambs : List SequenceAmbiguity}
    (h1 : EventsOk e₁) (h2 : EventsOk e₂) (h3 : EventsOk e₃)
    (h : (do
        let (s₅, e₄) ←
          if strHas s₄ '-' then
            match ProFormaParser.findTermHyphenRev s₄ with
            | some terminatorPos =>
              let cTerminalPart := s₄.drop (terminatorPos + 1)
              let rest := s₄.take terminatorPos
              let modStrs := ProFormaParser.collectBracketMods (cTerminalPart.length + 1)
                cTerminalPart 0 []
              pure (rest, modStrs.map
                (fun ms => ProFormaParser.PushEvent.single (some (-2)) ms { isTerminal := true }))
            | none => pure (s₄, [])
          else pure (s₄, [])
        let (b, e₅, am) ← ProFormaParser.mainWalk (s₅.length + 1) s₅ 0 [] false [] [] []
        pure (b, ProFormaParser.buildMap (e₁ ++ e₂ ++ e₃ ++ e₄ ++ e₅), gms, am) :
        Except String (Str × ModMap × List GlobalModification × List SequenceAmbiguity)) =
      .ok (base, pm, gm, ambs)) :
    ∃ evs, pm = ProFormaParser.buildMap evs ∧ EventsOk evs := by
  by_cases hd : strHas s₄ '-' = true
  · rw [if_pos hd] at h
    cases hft : ProFormaParser.findTermHyphenRev s₄ with
    | some tp =>
      rw [hft] at h
      simp only [] at h
      rw [pure_bind] at h
      simp only [] at h
      exact parse_tail6 h1 h2 h3 eventsOk_map_single h
    | none =>
      rw [hft] at h
      simp only [] at h
      rw [pure_bind] at h
      simp only [] at h
      exact parse_tail6 h1 h2 h3 eventsOk_nil h
  · rw [if_neg hd] at h
    rw [pure_bind] at h
    simp only [] at h
    exact parse_tail6 h1 h2 h3 eventsOk_nil h

theorem parse_tail4 {s₃ : Str} {e₁ e₂ : List ProFormaParser.PushEvent}
    {gms gm : List GlobalModification} {base : Str} {pm : ModMap}
    {ambs : List SequenceAmbiguity}
    (h1 : EventsOk e₁) (h2 : EventsOk e₂)
    (h : (do
        let (s₄, e₃) ←
          if s₃.head? = some '[' then
            match ProFormaParser.findTermHyphenAux s₃ 0 0 with
            | some terminatorPos =>
              let nTerminalPart := s₃.take terminatorPos
              let rest := s₃.drop (terminatorPos + 1)
              let modStrs := ProFormaParser.collectBracketMods (nTerminalPart.length + 1)
                nTerminalPart 0 []
              pure (rest, modStrs.map
                (fun ms => ProFormaParser.PushEvent.single (some (-1)) ms { isTerminal := true }))
            | none => pure (s₃, [])
          else pure (s₃, [])
        let (s₅, e₄) ←
          if strHas s₄ '-' then
            match ProFormaParser.findTermHyphenRev s₄ with
            | some terminatorPos =>
              let cTerminalPart := s₄.drop (terminatorPos + 1)
              let rest := s₄.take terminatorPos
              let modStrs := ProFormaParser.collectBracketMods (cTerminalPart.length + 1)
                cTerminalPart 0 []
              pure (rest, modStrs.map
                (fun ms => ProFormaParser.PushEvent.single (some (-2)) ms { isTerminal := true }))
            | none => pure (s₄, [])
          else pure (s₄, [])
        let (b, e₅, am) ← ProFormaParser.mainWalk (s₅.length + 1) s₅ 0 [] false [] [] []
        pure (b, ProFormaParser.buildMap (e₁ ++ e₂ ++ e₃ ++ e₄ ++ e₅), gms, am) :
        Except String (Str × ModMap × List GlobalModification × List SequenceAmbiguity)) =
      .ok (base, pm, gm, ambs)) :
    ∃ evs, pm = ProFormaParser.buildMap evs ∧ EventsOk evs := by
  by_cases hb : s₃.head? = some '['
  · rw [if_pos hb] at h
    cases hft : ProFormaParser.findTermHyphenAux s₃ 0 0 with
    | some tp =>
      rw [hft] at h
      simp only [] at h
      rw [pure_bind] at h
      simp only [] at h
      exact parse_tail5 h1 h2 eventsOk_map_single h
    | none =>
      rw [hft] at h
      simp only [] at h
      rw [pure_bind] at h
      simp only [] at h
      exact parse_tail5 h1 h2 eventsOk_nil h
  · rw [if_neg hb] at h
    rw [pure_bind] at h
    simp only [] at h
    exact parse_tail5 h1 h2 eventsOk_nil h

theorem parse_tail3 {s₂ : Str} {e₁ : List ProFormaParser.PushEvent}
    {gms gm : List GlobalModification} {base : Str} {pm : ModMap}
    {ambs : List SequenceAmbiguity}
    (h1 : EventsOk e₁)
    (h : (do
        let (i₃, e₂) ← ProFormaParser.labileLoop (s₂.length + 1) s₂ 0 []
        let s₃ := s₂.drop i₃
        let (s₄, e₃) ←
          if s₃.head? = some '[' then
            match ProFormaParser.findTermHyphenAux s₃ 0 0 with
            | some terminatorPos =>
              let nTerminalPart := s₃.take terminatorPos
              let rest := s₃.drop (terminatorPos + 1)
              let modStrs := ProFormaParser.collectBracketMods (nTerminalPart.length + 1)
                nTerminalPart 0 []
              pure (rest, modStrs.map
                (fun ms => ProFormaParser.PushEvent.single (some (-1)) ms { isTerminal := true }))
            | none => pure (s₃, [])
          else pure (s₃, [])
        let (s₅, e₄) ←
          if strHas s₄ '-' then
            match ProFormaParser.findTermHyphenRev s₄ with
            | some terminatorPos =>
              let cTerminalPart := s₄.drop (terminatorPos + 1)
              let rest := s₄.take terminatorPos
              let modStrs := ProFormaParser.collectBracketMods (cTerminalPart.length + 1)
                cTerminalPart 0 []
              pure (rest, modStrs.map
                (fun ms => ProFormaParser.PushEvent.single (some (-2)) ms { isTerminal := true }))
            | none => pure (s₄, [])
          else pure (s₄, [])
        let (b, e₅, am) ← ProFormaParser.mainWalk (s₅.length + 1) s₅ 0 [] false [] [] []
        pure (b, ProFormaParser.buildMap (e₁ ++ e₂ ++ e₃ ++ e₄ ++ e₅), gms, am) :
        Except String (Str × ModMap × List GlobalModification × List SequenceAmbiguity)) =
      .ok (base, pm, gm, ambs)) :
    ∃ evs, pm = ProFormaParser.buildMap evs ∧ EventsOk evs := by
  cases hll : ProFormaParser.labileLoop (s₂.length + 1) s₂ 0 [] with
  | error e =>
    rw [hll, error_bind] at h
    exact absurd h (by simp)
  | ok t =>
    obtain ⟨i₃, e₂⟩ := t
    rw [hll, ok_bind] at h
    simp only [] at h
    have h2 : EventsOk e₂ := by
      intro ev hev
      exact labileLoop_ranged (s₂.length + 1) s₂ 0 [] i₃ e₂ (by intro e he; simp at he)
        hll ev hev
    exact parse_tail4 h1 h2 h

theorem parse_events {s : Str} {base : Str} {pm : ModMap}
    {gm : List GlobalModification} {ambs : List SequenceAmbiguity}
    (h : ProFormaParser.parse s = .ok (base, pm, gm, ambs)) :
    ∃ evs : List ProFormaParser.PushEvent,
      pm = ProFormaParser.buildMap evs ∧ EventsOk evs := by
  rw [ProFormaParser.parse] at h
  cases hp1 : ProFormaParser.parseGlobalModsAux (s.length + 1) s [] with
  | error e =>
    rw [hp1, error_bind] at h
    exact absurd h (by simp)
  | ok t1 =>
    obtain ⟨s₁, gms⟩ := t1
    rw [hp1, ok_bind] at h
    simp only [] at h
    by_cases hq : strHas s₁ '?' = true
    · rw [if_pos hq] at h
      cases hup : ProFormaParser.unknownPosLoop (s₁.length + 1) s₁ 0 [] with
      | error e =>
        rw [hup, error_bind] at h
        exact absurd h (by simp)
      | ok t2 =>
        obtain ⟨i₂, e₁⟩ := t2
        rw [hup, ok_bind] at h
        simp only [] at h
        rw [pure_bind] at h
        simp only [] at h
        have h1 : EventsOk e₁ := by
          intro ev hev
          exact unknownPosLoop_ranged (s₁.length + 1) s₁ 0 [] i₂ e₁ hup ev hev
        exact parse_tail3 h1 h
    · rw [if_neg hq] at h
      rw [pure_bind] at h
      simp only [] at h
      exact parse_tail3 eventsOk_nil h

theorem aminoAcid_make_spec {v : Str} {pos : Option Int} {aa : AminoAcid}
    (h : AminoAcid.make v pos = .ok aa) :
    aa.position = pos ∧ aa.mods = [] ∧ aa.value = v := by
  rw [AminoAcid.make] at h
  cases hm : AA_mass v with
  | some mq =>
    rw [hm] at h
    simp only [] at h
    cases h
    exact ⟨rfl, rfl, rfl⟩
  | none =>
    rw [hm] at h
    simp at h

theorem buildResiduesAux_spec :
    ∀ (s : Str) (i : Nat) (l : List AminoAcid),
    buildResiduesAux i s = .ok l →
    l.length = s.length ∧
    ∀ (j : Nat) (aa : AminoAcid), l[j]? = some aa →
      aa.position = some ((i : Int) + j) ∧ aa.mods = [] := by
  intro s
  induction s with
  | nil =>
    intro i l h
    rw [buildResiduesAux] at h
    cases h
    refine ⟨rfl, ?_⟩
    intro j aa ha
    simp at ha
  | cons c rest ih =>
    intro i l h
    rw [buildResiduesAux] at h
    cases hm : AminoAcid.make [c] (some (i : Int)) with
    | error e =>
      rw [hm, error_bind] at h
      exact absurd h (by simp)
    | ok aa₀ =>
      rw [hm, ok_bind] at h
      cases hr : buildResiduesAux (i + 1) rest with
      | error e =>
        rw [hr, error_bind] at h
        exact absurd h (by simp)
      | ok raas =>
        rw [hr, ok_bind] at h
        cases h
        obtain ⟨hlen, hspec⟩ := ih (i + 1) raas hr
        refine ⟨by simp [hlen], ?_⟩
        intro j aa ha
        cases j with
        | zero =>
          rw [List.getElem?_cons_zero] at ha
          cases ha
          obtain ⟨hpos, hmods, _⟩ := aminoAcid_make_spec hm
          refine ⟨?_, hmods⟩
          rw [hpos]
          simp
        | succ j =>
          rw [List.getElem?_cons_succ] at ha
          obtain ⟨hpos, hmods⟩ := hspec j aa ha
          refine ⟨?_, hmods⟩
          rw [hpos]
          congr 1
          push_cast
          ring

theorem attachOne_spec {sq sq' : Sequence} {k : Option Int} {m : Modification}
    (h : sq.attachOne k m = .ok sq') :
    sq'.seq.length = sq.seq.length ∧
    (∀ (i : Nat) (aa' : AminoAcid), sq'.seq[i]? = some aa' →
      ∃ aa, sq.seq[i]? = some aa ∧ aa'.position = aa.position ∧
        ∀ x ∈ aa'.mods, x ∈ aa.mods ∨ (k = some (i : Int) ∧ x = m)) ∧
    (∀ x ∈ valsOf sq'.mods,
      x ∈ valsOf sq.mods ∨ ((∃ p : Int, k = some p ∧ p < 0) ∧ x = m)) := by
  cases k with
  | none =>
    rw [Sequence.attachOne] at h
    simp at h
  | some pos =>
    rw [Sequence.attachOne] at h
    by_cases hsent : pos = -1 ∨ pos = -2 ∨ pos = -3 ∨ pos = -4
    · rw [if_pos hsent] at h
      cases h
      refine ⟨rfl, ?_, ?_⟩
      · intro i aa' ha
        exact ⟨aa', ha, rfl, fun x hx => Or.inl hx⟩
      · intro x hx
        rcases mem_valsOf_pushMod hx with hx | hx
        · exact Or.inl hx
        · refine Or.inr ⟨⟨pos, rfl, ?_⟩, hx⟩
          rcases hsent with hs | hs | hs | hs <;> omega
    · rw [if_neg hsent] at h
      split at h
      · rename_i hrange
        cases h
        refine ⟨by simp, ?_, ?_⟩
        · intro i aa' ha
          by_cases hi : pos.toNat = i
          · subst hi
            rw [List.getElem?_set_self hrange.2] at ha
            cases ha
            refine ⟨sq.seq.get ⟨pos.toNat, hrange.2⟩, ?_, rfl, ?_⟩
            · rw [List.get_eq_getElem]
              exact (List.getElem?_eq_getElem hrange.2).symm ▸ rfl
            · intro x hx
              rw [AminoAcid.addModification] at hx
              simp only [] at hx
              rcases List.mem_append.mp hx with hx | hx
              · exact Or.inl hx
              · rcases List.mem_singleton.mp hx with rfl
                refine Or.inr ⟨?_, rfl⟩
                rw [Int.toNat_of_nonneg hrange.1]
          · rw [List.getElem?_set_ne hi] at ha
            exact ⟨aa', ha, rfl, fun x hx => Or.inl hx⟩
        · intro x hx
          exact Or.inl hx
      · exact absurd h (by simp)

theorem attachList_spec :
    ∀ (l : List Modification) {sq sq' : Sequence} {k : Option Int},
    sq.attachList k l = .ok sq' →
    sq'.seq.length = sq.seq.length ∧
    (∀ (i : Nat) (aa' : AminoAcid), sq'.seq[i]? = some aa' →
      ∃ aa, sq.seq[i]? = some aa ∧ aa'.position = aa.position ∧
        ∀ x ∈ aa'.mods, x ∈ aa.mods ∨ (k = some (i : Int) ∧ x ∈ l)) ∧
    (∀ x ∈ valsOf sq'.mods,
      x ∈ valsOf sq.mods ∨ ((∃ p : Int, k = some p ∧ p < 0) ∧ x ∈ l)) := by
  intro l
  induction l with
  | nil =>
    intro sq sq' k h
    rw [Sequence.attachList] at h
    cases h
    refine ⟨rfl, ?_, ?_⟩
    · intro i aa' ha
      exact ⟨aa', ha, rfl, fun x hx => Or.inl hx⟩
    · intro x hx
      exact Or.inl hx
  | cons m rest ih =>
    intro sq sq' k h
    rw [Sequence.attachList] at h
    cases ha : sq.attachOne k m with
    | error e =>
      rw [ha, error_bind] at h
      exact absurd h (by simp)
    | ok sq₁ =>
      rw [ha, ok_bind] at h
      obtain ⟨hlen1, hres1, hvals1⟩ := attachOne_spec ha
      obtain ⟨hlen2, hres2, hvals2⟩ := ih h
      refine ⟨hlen2.trans hlen1, ?_, ?_⟩
      · intro i aa' haa
        obtain ⟨aa₁, ha1, hpos1, hmods1⟩ := hres2 i aa' haa
        obtain ⟨aa, ha0, hpos0, hmods0⟩ := hres1 i aa₁ ha1
        refine ⟨aa, ha0, hpos1.trans hpos0, ?_⟩
        intro x hx
        rcases hmods1 x hx with hx1 | hx1
        · rcases hmods0 x hx1 with hx0 | hx0
          · exact Or.inl hx0
          · refine Or.inr ⟨hx0.1, ?_⟩
            rw [hx0.2]
            exact List.mem_cons_self m rest
        · exact Or.inr ⟨hx1.1, List.mem_cons_of_mem m hx1.2⟩
      · intro x hx
        rcases hvals2 x hx with hx1 | hx1
        · rcases hvals1 x hx1 with hx0 | hx0
          · exact Or.inl hx0
          · refine Or.inr ⟨hx0.1, ?_⟩
            rw [hx0.2]
            exact List.mem_cons_self m rest
        · exact Or.inr ⟨hx1.1, List.mem_cons_of_mem m hx1.2⟩

theorem attachAll_spec :
    ∀ (map : ModMap) {sq sq' : Sequence},
    sq.attachAll map = .ok sq' →
    sq'.seq.length = sq.seq.length ∧
    (∀ (i : Nat) (aa' : AminoAcid), sq'.seq[i]? = some aa' →
      ∃ aa, sq.seq[i]? = some aa ∧ aa'.position = aa.position ∧
        ∀ x ∈ aa'.mods, x ∈ aa.mods ∨ ∃ p ∈ map, p.1 = some (i : Int) ∧ x ∈ p.2) ∧
    (∀ x ∈ valsOf sq'.mods,
      x ∈ valsOf sq.mods ∨ ∃ p ∈ map, (∃ j : Int, p.1 = some j ∧ j < 0) ∧ x ∈ p.2) := by
  intro map
  induction map with
  | nil =>
    intro sq sq' h
    rw [Sequence.attachAll] at h
    cases h
    refine ⟨rfl, ?_, ?_⟩
    · intro i aa' ha
      exact ⟨aa', ha, rfl, fun x hx => Or.inl hx⟩
    · intro x hx
      exact Or.inl hx
  | cons q rest ih =>
    intro sq sq' h
    obtain ⟨qk, ql⟩ := q
    rw [Sequence.attachAll] at h
    cases hal : sq.attachList qk ql with
    | error e =>
      rw [hal, error_bind] at h
      exact absurd h (by simp)
    | ok sq₁ =>
      rw [hal, ok_bind] at h
      obtain ⟨hlen1, hres1, hvals1⟩ := attachList_spec ql hal
      obtain ⟨hlen2, hres2, hvals2⟩ := ih h
      refine ⟨hlen2.trans hlen1, ?_, ?_⟩
      · intro i aa' haa
        obtain ⟨aa₁, ha1, hpos1, hmods1⟩ := hres2 i aa' haa
        obtain ⟨aa, ha0, hpos0, hmods0⟩ := hres1 i aa₁ ha1
        refine ⟨aa, ha0, hpos1.trans hpos0, ?_⟩
        intro x hx
        rcases hmods1 x hx with hx1 | hx1
        · rcases hmods0 x hx1 with hx0 | hx0
          · exact Or.inl hx0
          · exact Or.inr ⟨(qk, ql), List.mem_cons_self _ _, hx0.1, hx0.2⟩
        · obtain ⟨p, hp, hp1, hp2⟩ := hx1
          exact Or.inr ⟨p, List.mem_cons_of_mem _ hp, hp1, hp2⟩
      · intro x hx
        rcases hvals2 x hx with hx1 | hx1
        · rcases hvals1 x hx1 with hx0 | hx0
          · exact Or.inl hx0
          · exact Or.inr ⟨(qk, ql), List.mem_cons_self _ _, hx0.1, hx0.2⟩
        · obtain ⟨p, hp, hp1, hp2⟩ := hx1
          exact Or.inr ⟨p, List.mem_cons_of_mem _ hp, hp1, hp2⟩

theorem eventMod_uid (i : Nat) (ev : ProFormaParser.PushEvent) : (eventMod i ev).uid = i := by
  cases ev with
  | single k ms o => exact createModification_uid i ms o
  | ranged ms o => exact createModification_uid i ms o

/-- C9 (amended). For every accepted ProForma string, the parsed sequence has
residue positions equal to their indices (contiguous `0..n-1`); two
modifications with the same identity attached to residues are the same
modification, and they sit on two distinct residues only if that modification
is a range modification (`inRange = true`); and a modification stored under a
negative sentinel key of the sequence-level map is never also attached to a
residue. -/
theorem c9_invariant_amended (s : Str) (sq : Sequence)
    (h : Sequence.fromProforma s = .ok sq) :
    (∀ (i : Nat) (aa : AminoAcid), sq.seq[i]? = some aa → aa.position = some (i : Int)) ∧
    (∀ (i j : Nat) (aai aaj : AminoAcid) (m m' : Modification),
      sq.seq[i]? = some aai → sq.seq[j]? = some aaj →
      m ∈ aai.mods → m' ∈ aaj.mods → m.uid = m'.uid →
      m = m' ∧ (i ≠ j → m.inRange = true)) ∧
    (∀ p ∈ sq.mods, ∀ m ∈ p.2, ∀ (i : Nat) (aa : AminoAcid) (m' : Modification),
      sq.seq[i]? = some aa → m' ∈ aa.mods → m.uid ≠ m'.uid) := by
  rw [Sequence.fromProforma] at h
  cases hp : ProFormaParser.parse s with
  | error e =>
    rw [hp, error_bind] at h
    exact absurd h (by simp)
  | ok t =>
    obtain ⟨base, pm, gm, ambs⟩ := t
    rw [hp, ok_bind] at h
    simp only [] at h
    cases hbr : buildResidues base with
    | error e =>
      rw [hbr, error_bind] at h
      exact absurd h (by simp)
    | ok residues =>
      rw [hbr, ok_bind] at h
      obtain ⟨evs, hpm, hok⟩ := parse_events hp
      obtain ⟨hrlen, hrspec⟩ := buildResiduesAux_spec base 0 residues hbr
      obtain ⟨hlen, hres, hvals⟩ := attachAll_spec pm h
      have residueMod : ∀ (i : Nat) (aa' : AminoAcid) (x : Modification),
          sq.seq[i]? = some aa' → x ∈ aa'.mods →
          ∃ p ∈ pm, p.1 = some (i : Int) ∧ x ∈ p.2 := by
        intro i aa' x ha hx
        obtain ⟨aa, ha0, hpos0, hmods0⟩ := hres i aa' ha
        rcases hmods0 x hx with hx0 | hx0
        · rw [(hrspec i aa ha0).2] at hx0
          simp at hx0
        · exact hx0
      have occOf : ∀ (x : Modification) (kk : Option Int),
          (∃ p ∈ pm, p.1 = kk ∧ x ∈ p.2) → kk ∈ occsOf pm x.uid := by
        intro x kk hkp
        obtain ⟨p, hp, hk, hx⟩ := hkp
        rw [← hk]
        exact mem_occsOf_intro hp hx rfl
      have valOf : ∀ (x : Modification), x ∈ valsOf pm →
          ∃ (j : Nat) (hj : j < evs.length), x.uid = j ∧ x = eventMod j (evs.get ⟨j, hj⟩) := by
        intro x hx
        rw [hpm] at hx
        rcases mem_valsOf_buildMapAux evs hx with hx | hx
        · rw [valsOf] at hx
          simp at hx
        · obtain ⟨j, hj, hxe⟩ := hx
          rw [Nat.zero_add] at hxe
          refine ⟨j, hj, ?_, hxe⟩
          rw [hxe]
          exact eventMod_uid j _
      have occKeys : ∀ (v : Nat) (kk : Option Int), kk ∈ occsOf pm v →
          ∃ hv : v < evs.length, kk ∈ eventKeys v (evs.get ⟨v, hv⟩) := by
        intro v kk hk
        rw [hpm] at hk
        rcases mem_occsOf_buildMapAux evs hk with hk | hk
        · rw [occsOf] at hk
          simp at hk
        · obtain ⟨j, hj, hjv, hkk⟩ := hk
          have hje : j = v := by omega
          subst hje
          exact ⟨hj, hkk⟩
      have sameUid : ∀ (x y : Modification), x ∈ valsOf pm → y ∈ valsOf pm →
          x.uid = y.uid → x = y := by
        intro x y hx hy hxy
        obtain ⟨jx, hjx, hux, hex⟩ := valOf x hx
        obtain ⟨jy, hjy, huy, hey⟩ := valOf y hy
        have hje : jx = jy := by omega
        subst hje
        exact hex.trans hey.symm
      refine ⟨?_, ?_, ?_⟩
      · intro i aa ha
        obtain ⟨aa0, ha0, hpos0, _⟩ := hres i aa ha
        rw [hpos0, (hrspec i aa0 ha0).1]
        simp
      · intro i j aai aaj m m' hai haj hmi hmj huid
        obtain ⟨pi, hpi, hki, hxi⟩ := residueMod i aai m hai hmi
        obtain ⟨pj, hpj, hkj, hxj⟩ := residueMod j aaj m' haj hmj
        have hmv : m ∈ valsOf pm := mem_valsOf_intro hpi hxi
        have hmv' : m' ∈ valsOf pm := mem_valsOf_intro hpj hxj
        have heq : m = m' := sameUid m m' hmv hmv' huid
        refine ⟨heq, ?_⟩
        intro hij
        have hoi : (some (i : Int)) ∈ occsOf pm m.uid := occOf m _ ⟨pi, hpi, hki, hxi⟩
        have hoj : (some (j : Int)) ∈ occsOf pm m.uid := by
          rw [huid]
          exact occOf m' _ ⟨pj, hpj, hkj, hxj⟩
        obtain ⟨hv, hkeys_i⟩ := occKeys m.uid _ hoi
        obtain ⟨hv', hkeys_j⟩ := occKeys m.uid _ hoj
        cases hgev : evs.get ⟨m.uid, hv⟩ with
        | single k ms o =>
          rw [hgev] at hkeys_i
          have hrw : evs.get ⟨m.uid, hv'⟩ = ProFormaParser.PushEvent.single k ms o := by
            rw [show evs.get ⟨m.uid, hv'⟩ = evs.get ⟨m.uid, hv⟩ from rfl, hgev]
          rw [hrw] at hkeys_j
          rw [eventKeys] at hkeys_i hkeys_j
          have h1 := List.mem_singleton.mp hkeys_i
          have h2 := List.mem_singleton.mp hkeys_j
          rw [← h2] at h1
          exact absurd (by exact_mod_cast Option.some.inj h1) hij
        | ranged ms o =>
          have hro : RangedOk (ProFormaParser.PushEvent.ranged ms o) := by
            rw [← hgev]
            exact hok _ (List.get_mem evs _ _)
          obtain ⟨hinr, _⟩ := hro
          obtain ⟨ju, hju, hum, hemu⟩ := valOf m hmv
          subst hum
          have h1 : evs.get ⟨m.uid, hju⟩ = ProFormaParser.PushEvent.ranged ms o := by
            rw [show evs.get ⟨m.uid, hju⟩ = evs.get ⟨m.uid, hv⟩ from rfl, hgev]
          have hm : m = ProFormaParser.createModification m.uid ms o := by
            conv_lhs => rw [hemu, h1]
            rw [eventMod]
          rw [hm, createModification_inRange]
          exact hinr
      · intro p hp m hm i aa m' ha hm' huid
        have hmv : m ∈ valsOf sq.mods := mem_valsOf_intro hp hm
        rcases hvals m hmv with hx | hx
        · rw [valsOf] at hx
          simp at hx
        · obtain ⟨ps, hps, hsx, hmem⟩ := hx
          obtain ⟨js, hjs1, hjs2⟩ := hsx
          have hos : (some js) ∈ occsOf pm m.uid := occOf m _ ⟨ps, hps, hjs1, hmem⟩
          obtain ⟨pi, hpi, hki, hxi⟩ := residueMod i aa m' ha hm'
          have hoi : (some (i : Int)) ∈ occsOf pm m.uid := by
            rw [huid]
            exact occOf m' _ ⟨pi, hpi, hki, hxi⟩
          obtain ⟨hv, hkeys_s⟩ := occKeys m.uid _ hos
          obtain ⟨hv', hkeys_i⟩ := occKeys m.uid _ hoi
          cases hgev : evs.get ⟨m.uid, hv⟩ with
          | single k ms o =>
            rw [hgev] at hkeys_s
            have hrw : evs.get ⟨m.uid, hv'⟩ = ProFormaParser.PushEvent.single k ms o := by
              rw [show evs.get ⟨m.uid, hv'⟩ = evs.get ⟨m.uid, hv⟩ from rfl, hgev]
            rw [hrw] at hkeys_i
            rw [eventKeys] at hkeys_s hkeys_i
            have h1 := List.mem_singleton.mp hkeys_s
            have h2 := List.mem_singleton.mp hkeys_i
            rw [← h2] at h1
            have h3 : js = (i : Int) := Option.some.inj h1
            omega
          | ranged ms o =>
            have hro : RangedOk (ProFormaParser.PushEvent.ranged ms o) := by
              rw [← hgev]
              exact hok _ (List.get_mem evs _ _)
            obtain ⟨hinr, rs, hrs1, hrs2⟩ := hro
            rw [hgev] at hkeys_s
            rw [eventKeys] at hkeys_s
            have hstart : (ProFormaParser.createModification m.uid ms o).rangeStart =
                jsIntOpt0 (some rs) := by
              rw [createModification_rangeStart, hrs1]
            rcases mem_rangedKeys_nonneg hrs2 hstart hkeys_s with hnone | hsome
            · exact Option.noConfusion hnone
            · obtain ⟨pp, hpeq, hppos⟩ := hsome
              have h3 : js = pp := Option.some.inj hpeq
              omega

/-- Witness for C9 on the parsed `PRT(ESFRMS)[+19.0523]ISK`: the parse
hypothesis holds and the contiguity clause gives residue 5 position 5. -/
theorem c9_invariant_amended_witness :
    ((c9Seq.seq[5]?).map (fun aa => aa.position)) = some (some 5) := by
  have hmain := c9_invariant_amended "PRT(ESFRMS)[+19.0523]ISK".toList c9Seq (by decide)
  cases hg : c9Seq.seq[5]? with
  | none => exact absurd hg (by decide)
  | some aa =>
    have hpos := hmain.1 5 aa hg
    simp [hpos]

end Sequal
